import Mathlib

/-!
Verification development for the streaming speech-to-text transport
(`RecognizeStream`, a Node.js Duplex stream over a WebSocket).

The embedding models

  - JavaScript option objects as association lists of string keys and
    JS-style values, with JS truthiness (`truthy`);
  - the pure parameter builders of `initialize` (legacy-name
    normalization, `pick` over the two allow-lists, `extend`, the
    default-model injection, the handshake message);
  - the stateful stream as an explicit record `St` driven by a `step`
    function over caller events (`write`, `finishCall`, `stopCall`) and
    transport events (`sockOpen`, `sockMsg`, `sockErr`, `sockClose`,
    poll ticks and buffered-amount changes).

The model assumes no `token_manager` is configured, so the auth callback
in `_write` succeeds synchronously; the claims under study do not
involve the token collaborator.  Timers (`setTimeout` in `afterSend`)
are modelled by explicit `tick` events; the transport buffered-bytes
counter `socket.bufferedAmount` is owned by the external WebSocket
library, so it is driven by environment events (`setBuffered`).
A JavaScript exception inside a handler (send on a CONNECTING socket,
property access on `undefined`) sets the `crashed` flag, which freezes
the state.
-/

/-- JS primitive values as they appear in option objects. -/
inductive JsVal where
  | str (s : String)
  | bool (b : Bool)
  | num (n : Int)
deriving DecidableEq

/-- JS truthiness of a value. -/
def truthy : JsVal → Bool
  | .str s => s ≠ ""
  | .bool b => b
  | .num n => n ≠ 0

/-- A JS object used as an options / message map: association list,
first occurrence of a key wins on read. -/
abbrev Options := List (String × JsVal)

/-- Property read: `o[k]`, `none` when the key is absent. -/
def getOpt : Options → String → Option JsVal
  | [], _ => none
  | (k', v) :: rest, k => if k' = k then some v else getOpt rest k

/-- The `in` operator: key presence. -/
def hasKeyB (o : Options) (k : String) : Bool :=
  (getOpt o k).isSome

/-- JS truthiness of a property read (absent reads as undefined, falsy). -/
def truthyO : Option JsVal → Bool
  | some v => truthy v
  | none => false

/-- Property assignment `o[k] = v`: replaces the first binding in place,
appends when the key is new. -/
def setOpt : Options → String → JsVal → Options
  | [], k, v => [(k, v)]
  | (k', v') :: rest, k, v =>
    if k' = k then (k, v) :: rest else (k', v') :: setOpt rest k v

/-- `delete o[k]`. -/
def delOpt : Options → String → Options
  | [], _ => []
  | (k', v') :: rest, k =>
    if k' = k then delOpt rest k else (k', v') :: delOpt rest k

/-- `pick(o, allowed)` from object.pick: the allow-listed entries that are
present in `o`, in allow-list order. -/
def pickOpts (o : Options) (allowed : List String) : Options :=
  allowed.filterMap (fun k => (getOpt o k).map (fun v => (k, v)))

/-- `extend(target, source)`: assign every entry of `source` onto `target`. -/
def extendOpts (target source : Options) : Options :=
  source.foldl (fun acc kv => setOpt acc kv.1 kv.2) target

/-- `OPENING_MESSAGE_PARAMS_ALLOWED` from the source. -/
def OPENING_MESSAGE_PARAMS_ALLOWED : List String :=
  ["action", "customization_weight", "processing_metrics",
   "processing_metrics_interval", "audio_metrics", "inactivity_timeout",
   "timestamps", "word_confidence", "content-type", "interim_results",
   "keywords", "keywords_threshold", "max_alternatives",
   "word_alternatives_threshold", "profanity_filter", "smart_formatting",
   "speaker_labels", "grammar_name", "redaction"]

/-- `QUERY_PARAMS_ALLOWED` from the source. -/
def QUERY_PARAMS_ALLOWED : List String :=
  ["model", "X-Watson-Learning-Opt-Out", "watson-token",
   "language_customization_id", "customization_id",
   "acoustic_customization_id", "access_token", "base_model_version",
   "x-watson-metadata"]

/-- Deprecated `token` to `watson-token` fallback in `initialize`. -/
def stepTok (o : Options) : Options :=
  if truthyO (getOpt o "token") && !truthyO (getOpt o "watson-token") then
    setOpt o "watson-token" ((getOpt o "token").getD (JsVal.str ""))
  else o

/-- Deprecated `content_type` to `content-type` fallback in `initialize`. -/
def stepCT (o : Options) : Options :=
  if truthyO (getOpt o "content_type") && !truthyO (getOpt o "content-type") then
    setOpt o "content-type" ((getOpt o "content_type").getD (JsVal.str ""))
  else o

/-- Deprecated `X-WDC-PL-OPT-OUT` to `X-Watson-Learning-Opt-Out` fallback. -/
def stepOptOut (o : Options) : Options :=
  if truthyO (getOpt o "X-WDC-PL-OPT-OUT") &&
      !truthyO (getOpt o "X-Watson-Learning-Opt-Out") then
    setOpt o "X-Watson-Learning-Opt-Out"
      ((getOpt o "X-WDC-PL-OPT-OUT").getD (JsVal.str ""))
  else o

/-- Deprecated `customization_id` to `language_customization_id` fallback;
the old key is deleted when the mapping fires. -/
def stepCust (o : Options) : Options :=
  if truthyO (getOpt o "customization_id") &&
      !truthyO (getOpt o "language_customization_id") then
    delOpt
      (setOpt o "language_customization_id"
        ((getOpt o "customization_id").getD (JsVal.str "")))
      "customization_id"
  else o

/-- The legacy-name normalization performed at the top of `initialize`,
in source order. -/
def normalizeNames (o : Options) : Options :=
  stepCust (stepOptOut (stepCT (stepTok o)))

/-- The opening (handshake) message: `pick` over the control allow-list,
then `action` is overwritten with `"start"`. -/
def handshakeOf (o : Options) : Options :=
  setOpt (pickOpts o OPENING_MESSAGE_PARAMS_ALLOWED) "action" (JsVal.str "start")

/-- Handshake builder as seen from raw caller options (normalization is
applied first, as `initialize` does). -/
def buildHandshake (o : Options) : Options :=
  handshakeOf (normalizeNames o)

/-- The `queryParams` computation of `initialize` on already-normalized
options: a default model is the extend-base exactly when the
`language_customization_id` key is absent. -/
def queryOf (o : Options) : Options :=
  extendOpts
    (if hasKeyB o "language_customization_id" then
      pickOpts o QUERY_PARAMS_ALLOWED
     else [("model", JsVal.str "en-US_BroadbandModel")])
    (pickOpts o QUERY_PARAMS_ALLOWED)

/-- Query builder as seen from raw caller options. -/
def buildQuery (o : Options) : Options :=
  queryOf (normalizeNames o)

/-- One transcription alternative; `transcript := none` models an absent
transcript property. -/
structure Alt where
  transcript : Option String
deriving DecidableEq

/-- One recognition result.  `final` is the truthiness of the final flag;
`alternatives := none` models an absent or falsy alternatives property,
`some l` a (possibly empty) array, which is always truthy in JS. -/
structure RResult where
  final : Bool
  alternatives : Option (List Alt)
deriving DecidableEq

/-- A parsed inbound JSON frame.  `resultIndex` stands for the extra
`result_index` field real result frames carry beside `results`; it lets
the model distinguish a full frame from its `results` content. -/
structure RFrame where
  error : Option String
  state : Option String
  results : Option (List RResult)
  resultIndex : Option Nat
deriving DecidableEq

/-- Truthiness of an optional string property (absent or empty is falsy). -/
def truthyS : Option String → Bool
  | some t => t ≠ ""
  | none => false

/-- Binary audio chunks are byte lists. -/
abbrev Chunk := List Nat

/-- A frame handed to `socket.send`: a JSON control message or binary audio. -/
inductive Frame where
  | json (m : Options)
  | binary (c : Chunk)
deriving DecidableEq

/-- An item pushed to the readable side: a full structured frame in
object mode, or finalized text otherwise. -/
inductive Out where
  | obj (f : RFrame)
  | txt (s : String)
deriving DecidableEq

/-- A handler registered with `once(open, ...)`: send the buffered first
chunk, or send the stop message. -/
inductive OAct where
  | chunk (c : Chunk)
  | stop
deriving DecidableEq

/-- WebSocket readyState, plus the pre-`initialize` phase in which
`this.socket` is still undefined. -/
inductive SockSt where
  | noSocket
  | connecting
  | opened
  | closing
  | closed
deriving DecidableEq

/-- The state of one RecognizeStream plus its observable interactions. -/
structure St where
  opts : Options
  objectMode : Bool
  hwm : Nat
  listening : Bool
  initialized : Bool
  finished : Bool
  sock : SockSt
  opening : Options
  pending : List OAct
  sent : List Frame
  outs : List Out
  ended : Bool
  errs : List String
  buffered : Nat
  pendingCbs : Nat
  cbInvoked : Nat
  crashed : Bool
deriving DecidableEq

/-- Caller and environment events driving the stream. -/
inductive Ev where
  | write (c : Chunk)
  | sockOpen
  | sockMsg (f : RFrame)
  | sockBinMsg
  | sockBadJson
  | sockErr
  | sockClose
  | finishCall
  | stopCall
  | tick
  | setBuffered (n : Nat)
deriving DecidableEq

/-- `socket.send`: appended when OPEN, silently discarded when CLOSING or
CLOSED, an InvalidStateError (crash) when CONNECTING, a TypeError when
the socket does not exist yet. -/
def sendFrame (s : St) (f : Frame) : St :=
  match s.sock with
  | .opened => { s with sent := s.sent ++ [f] }
  | .closing => s
  | .closed => s
  | _ => { s with crashed := true }

/-- `afterSend(next)`: invoke the write callback now when the buffered
amount is at or below the watermark, otherwise leave it pending for the
next poll tick. -/
def afterSendCheck (s : St) : St :=
  if s.buffered ≤ s.hwm then { s with cbInvoked := s.cbInvoked + 1 }
  else { s with pendingCbs := s.pendingCbs + 1 }

/-- `sendData(chunk)` followed by `afterSend(callback)`. -/
def sendThen (s : St) (f : Frame) : St :=
  let s' := sendFrame s f
  if s'.crashed then s' else afterSendCheck s'

/-- The closing control message `{action: "stop"}`. -/
def stopMsg : Options := [("action", JsVal.str "stop")]

/-- `finish()`: only the first call acts; send the stop message when the
socket is OPEN, otherwise defer it to the open event. -/
def doFinish (s : St) : St :=
  if s.finished then s
  else
    let s1 : St := { s with finished := true }
    if s1.sock = SockSt.opened then sendFrame s1 (.json stopMsg)
    else { s1 with pending := s1.pending ++ [OAct.stop] }

/-- Modelled from the spec: `RecognizeStream.getContentType` delegates to
`contentType.fromHeader` of ibm-cloud-sdk-core, which is not part of this
repository.  Per the spec, the sniffer inspects a small fixed prefix of
the first chunk and recognizes the wav, flac, ogg/opus and webm
magic-byte signatures, returning none for anything else. -/
def detect (c : Chunk) : Option String :=
  if c.take 4 = [0x66, 0x4C, 0x61, 0x43] then some "audio/flac"
  else if c.take 4 = [0x52, 0x49, 0x46, 0x46] then some "audio/wav"
  else if c.take 4 = [0x4F, 0x67, 0x67, 0x53] then some "audio/ogg; codecs=opus"
  else if c.take 4 = [0x1A, 0x45, 0xDF, 0xA3] then some "audio/webm"
  else none

/-- `initialize()`: normalize the shared options, record the handshake
message captured by the onopen closure, create the socket, register the
once-open handler that will transmit the first chunk. -/
def doInitialize (s : St) (c : Chunk) : St :=
  let o := normalizeNames s.opts
  { s with
    opts := o
    opening := handshakeOf o
    sock := SockSt.connecting
    initialized := true
    pending := s.pending ++ [OAct.chunk c] }

/-- `_write(chunk, _, callback)` after a successful auth callback. -/
def doWrite (s : St) (c : Chunk) : St :=
  if s.finished then s
  else if !s.initialized then
    if !truthyO (getOpt s.opts "content-type") &&
        !truthyO (getOpt s.opts "content_type") then
      match detect c with
      | some ct =>
        doInitialize { s with opts := setOpt s.opts "content-type" (JsVal.str ct) } c
      | none =>
        { s with errs := s.errs ++ ["UNRECOGNIZED_FORMAT"], ended := true }
    else doInitialize s c
  else sendThen s (.binary c)

/-- `push(x)` on the readable side; pushing after EOF raises the Node
stream error event instead of delivering data. -/
def pushOut (s : St) (o : Out) : St :=
  if s.ended then { s with errs := s.errs ++ ["push after EOF"] }
  else { s with outs := s.outs ++ [o] }

/-- `socket.close()` requested locally. -/
def closeReq : SockSt → SockSt
  | .opened => .closing
  | .connecting => .closing
  | x => x

/-- One iteration of the results forEach in text mode: a final result
with a truthy alternatives property pushes the transcript of its first
alternative; indexing an empty array then reading `.transcript`, or
pushing an absent transcript, throws. -/
def textStep (s : St) (r : RResult) : St :=
  if s.crashed then s
  else if r.final then
    match r.alternatives with
    | none => s
    | some l =>
      match l.head? with
      | none => { s with crashed := true }
      | some a =>
        match a.transcript with
        | some t => pushOut s (Out.txt t)
        | none => { s with crashed := true }
  else s

/-- The `socket.onmessage` handler on a successfully parsed JSON frame. -/
def doMsg (s : St) (f : RFrame) : St :=
  if s.sock = SockSt.noSocket then s
  else if truthyS f.error then
    { s with errs := s.errs ++ [f.error.getD ""] }
  else if f.state = some "listening" then
    if s.listening then { s with listening := false, sock := closeReq s.sock }
    else { s with listening := true }
  else if s.objectMode then pushOut s (Out.obj f)
  else
    match f.results with
    | some rs => rs.foldl textStep s
    | none => s

/-- Run the handlers registered with `once(open, ...)`, in registration
order. -/
def runPending (s : St) (acts : List OAct) : St :=
  acts.foldl
    (fun st a =>
      if st.crashed then st
      else
        match a with
        | OAct.chunk c => sendThen st (.binary c)
        | OAct.stop => sendFrame st (.json stopMsg))
    s

/-- The transition function: one caller call or transport event. -/
def step (s : St) (e : Ev) : St :=
  if s.crashed then s
  else
    match e with
    | .write c => doWrite s c
    | .sockOpen =>
      match s.sock with
      | SockSt.connecting =>
        let s1 : St := { s with sock := SockSt.opened }
        let s2 := sendFrame s1 (.json s1.opening)
        let acts := s2.pending
        runPending { s2 with pending := [] } acts
      | _ => s
    | .sockMsg f => doMsg s f
    | .sockBinMsg =>
      if s.sock = SockSt.noSocket then s
      else { s with errs := s.errs ++ ["Unexpected binary data received from server"] }
    | .sockBadJson =>
      if s.sock = SockSt.noSocket then s
      else { s with errs := s.errs ++ ["Invalid JSON received from service:"] }
    | .sockErr =>
      if s.sock = SockSt.noSocket then s
      else { s with listening := false,
                    errs := s.errs ++ ["WebSocket connection error"],
                    ended := true }
    | .sockClose =>
      if s.sock = SockSt.noSocket then s
      else { s with listening := false, ended := true, sock := SockSt.closed }
    | .finishCall => doFinish s
    | .stopCall => doFinish s
    | .tick =>
      if 0 < s.pendingCbs ∧ s.buffered ≤ s.hwm then
        { s with pendingCbs := s.pendingCbs - 1, cbInvoked := s.cbInvoked + 1 }
      else s
    | .setBuffered n => { s with buffered := n }

/-- The constructor: objectMode is an alias for readableObjectMode and is
removed from the options when used. -/
def mkStream (opts : Options) (hwm : Nat) : St :=
  let opts2 :=
    if truthyO (getOpt opts "objectMode") then
      delOpt (setOpt opts "readableObjectMode" (JsVal.bool true)) "objectMode"
    else opts
  { opts := opts2
    objectMode := truthyO (getOpt opts2 "readableObjectMode")
    hwm := hwm
    listening := false
    initialized := false
    finished := false
    sock := SockSt.noSocket
    opening := []
    pending := []
    sent := []
    outs := []
    ended := false
    errs := []
    buffered := 0
    pendingCbs := 0
    cbInvoked := 0
    crashed := false }

/-- Run a stream from construction through a sequence of events. -/
def run (opts : Options) (hwm : Nat) (evs : List Ev) : St :=
  evs.foldl step (mkStream opts hwm)

/-- Is a frame binary audio. -/
def isBinary : Frame → Bool
  | .binary _ => true
  | .json _ => false

/-- Number of binary audio frames transmitted. -/
def countBinary (l : List Frame) : Nat :=
  (l.filter isBinary).length

/-- Is a frame the stop control message. -/
def isStopFrame : Frame → Bool
  | .json m => decide (getOpt m "action" = some (JsVal.str "stop"))
  | .binary _ => false

/-- Number of stop control frames transmitted. -/
def countStop (l : List Frame) : Nat :=
  (l.filter isStopFrame).length

/-- Is a frame a start (handshake) control message. -/
def isStartFrame : Frame → Bool
  | .json m => decide (getOpt m "action" = some (JsVal.str "start"))
  | .binary _ => false

/-- Is a deferred open action the stop action. -/
def isStopAct : OAct → Bool
  | .stop => true
  | .chunk _ => false

/-- Number of deferred stop actions. -/
def countStopActs (l : List OAct) : Nat :=
  (l.filter isStopAct).length

/-- Does an event deliver an inbound listening frame. -/
def isListeningEv : Ev → Bool
  | .sockMsg f => decide (f.state = some "listening")
  | _ => false

/-- Does an event call finish, directly or through stop. -/
def isFinishEv : Ev → Bool
  | .finishCall => true
  | .stopCall => true
  | _ => false

/-- Does an event deliver an inbound error frame. -/
def isErrorFrameEv : Ev → Bool
  | .sockMsg f => truthyS f.error
  | _ => false

/-- The transcripts the text-mode output shaping extracts from a results
array: the first alternative of each final result that has an
alternatives property. -/
def finalTexts (rs : List RResult) : List String :=
  rs.filterMap (fun r =>
    if r.final then
      match r.alternatives with
      | some l =>
        match l.head? with
        | some a => a.transcript
        | none => none
      | none => none
    else none)

/-- Does processing this results array in text mode throw (an empty but
present alternatives array, or a first alternative without transcript,
under a final flag). -/
def textCrashes (rs : List RResult) : Bool :=
  rs.any (fun r =>
    r.final &&
      (match r.alternatives with
       | some l =>
         (match l.head? with
          | some a => a.transcript.isNone
          | none => true)
       | none => false))

/-- Base safety invariant of the stream state machine: nothing is sent
before the socket opens; once a socket exists the captured opening
message carries the start action; once open the handshake is on the
wire; the earliest transmitted frame is always the start handshake; a
stream with no socket is uninitialized. -/
def InvBase (s : St) : Prop :=
  ((s.sock = SockSt.noSocket ∨ s.sock = SockSt.connecting) → s.sent = []) ∧
  (s.sock ≠ SockSt.noSocket → getOpt s.opening "action" = some (JsVal.str "start")) ∧
  (s.sock = SockSt.opened → s.sent ≠ []) ∧
  (s.initialized = false → s.sock = SockSt.noSocket) ∧
  (∀ f, s.sent.head? = some f → isStartFrame f = true)

/-- Stop-message accounting invariant: at most one stop frame ever, and
none before finish is called. -/
def InvStop (s : St) : Prop :=
  countStop s.sent + countStopActs s.pending ≤ 1 ∧
  (s.finished = false → countStop s.sent = 0 ∧ countStopActs s.pending = 0)

/-- After a finish that transmitted the stop frame: exactly one stop
frame on the wire and none pending. -/
def InvDone (s : St) : Prop :=
  s.finished = true ∧ countStop s.sent = 1 ∧ countStopActs s.pending = 0

/-- Demo options with an explicit content type (no sniffing needed). -/
def cexOptsCT : Options := [("content-type", JsVal.str "audio/l16")]

/-- Demo options selecting structured (object mode) output. -/
def cexOptsObj : Options :=
  [("objectMode", JsVal.bool true), ("content-type", JsVal.str "audio/l16")]

/-- An inbound error frame. -/
def errFrame : RFrame :=
  { error := some "boom", state := none, results := none, resultIndex := none }

/-- A final alternative with a transcript. -/
def resAlt : Alt := { transcript := some "hello world" }

/-- A result frame with one final result, carrying result_index 0. -/
def resFrame1 : RFrame :=
  { error := none, state := none,
    results := some [{ final := true, alternatives := some [resAlt] }],
    resultIndex := some 0 }

/-- Same results content as resFrame1 but a different result_index. -/
def resFrame2 : RFrame :=
  { error := none, state := none,
    results := some [{ final := true, alternatives := some [resAlt] }],
    resultIndex := some 1 }

/-- Trace: one chunk pushed, then the socket opens; no listening frame
is ever received. -/
def cexTraceC1 : List Ev := [Ev.write [1, 2, 3], Ev.sockOpen]

/-- Trace: a chunk, open, an inbound error frame, then another chunk. -/
def cexTraceC2 : List Ev :=
  [Ev.write [1], Ev.sockOpen, Ev.sockMsg errFrame, Ev.write [2]]

/-- Trace: a chunk, open, remote close, then finish is called. -/
def cexTraceC3 : List Ev :=
  [Ev.write [1], Ev.sockOpen, Ev.sockClose, Ev.finishCall]

/-- A structured-mode stream that has opened its connection. -/
def stateObj : St := run cexOptsObj 16 [Ev.write [1], Ev.sockOpen]

/-- A text-mode stream that has opened its connection. -/
def stateTxt : St := run cexOptsCT 16 [Ev.write [1], Ev.sockOpen]

/-- A stream with one write callback parked in the afterSend poll loop. -/
def stateBP : St := { mkStream cexOptsCT 16 with pendingCbs := 1, buffered := 3 }

/-- First bytes of a RIFF (wav) file. -/
def wavChunk : Chunk := [0x52, 0x49, 0x46, 0x46, 0, 0, 0, 0]

/-- First bytes of no known audio format. -/
def badChunk : Chunk := [9, 9, 9, 9]

/-! ### Association-list lemmas -/

theorem getOpt_setOpt_same (o : Options) (k : String) (v : JsVal) :
    getOpt (setOpt o k v) k = some v := by
  induction o with
  | nil => simp [setOpt, getOpt]
  | cons kv rest ih =>
    obtain ⟨a, b⟩ := kv
    by_cases ha : a = k
    · simp [setOpt, getOpt, ha]
    · simp [setOpt, getOpt, ha, ih]

theorem getOpt_setOpt_ne (o : Options) (k k' : String) (v : JsVal)
    (h : k' ≠ k) : getOpt (setOpt o k v) k' = getOpt o k' := by
  have hkk : ¬(k = k') := fun hh => h hh.symm
  induction o with
  | nil => simp [setOpt, getOpt, hkk]
  | cons kv rest ih =>
    obtain ⟨a, b⟩ := kv
    by_cases ha : a = k
    · subst ha
      simp [setOpt, getOpt, hkk]
    · by_cases hb : a = k'
      · simp [setOpt, getOpt, ha, hb, hkk, h]
      · simp [setOpt, getOpt, ha, hb, ih]

theorem getOpt_delOpt_ne (o : Options) (k k' : String)
    (h : k' ≠ k) : getOpt (delOpt o k) k' = getOpt o k' := by
  have hkk : ¬(k = k') := fun hh => h hh.symm
  induction o with
  | nil => simp [delOpt]
  | cons kv rest ih =>
    obtain ⟨a, b⟩ := kv
    by_cases ha : a = k
    · subst ha
      simp [delOpt, getOpt, hkk, ih]
    · by_cases hb : a = k'
      · simp [delOpt, getOpt, ha, hb, hkk, h]
      · simp [delOpt, getOpt, ha, hb, ih]

theorem getOpt_none_of_not_mem_keys (o : Options) (k : String)
    (h : k ∉ o.map Prod.fst) : getOpt o k = none := by
  induction o with
  | nil => simp [getOpt]
  | cons kv rest ih =>
    obtain ⟨a, b⟩ := kv
    simp only [List.map_cons, List.mem_cons] at h
    push_neg at h
    have ha : ¬(a = k) := fun hh => h.1 hh.symm
    simp [getOpt, ha, ih h.2]

theorem mem_keys_of_isSome (o : Options) (k : String)
    (h : (getOpt o k).isSome = true) : k ∈ o.map Prod.fst := by
  by_contra hk
  rw [getOpt_none_of_not_mem_keys o k hk] at h
  simp at h

/-! ### pick and extend lemmas -/

theorem getOpt_pick_none (o : Options) (al : List String) (k : String)
    (h : getOpt o k = none) : getOpt (pickOpts o al) k = none := by
  induction al with
  | nil => simp [pickOpts, getOpt]
  | cons a al' ih =>
    by_cases hk : a = k
    · subst hk
      have hrw : pickOpts o (a :: al') = pickOpts o al' := by
        simp [pickOpts, List.filterMap_cons, h]
      rw [hrw]
      exact ih
    · cases hoa : getOpt o a with
      | none =>
        have hrw : pickOpts o (a :: al') = pickOpts o al' := by
          simp [pickOpts, List.filterMap_cons, hoa]
        rw [hrw]
        exact ih
      | some v =>
        have hrw : pickOpts o (a :: al') = (a, v) :: pickOpts o al' := by
          simp [pickOpts, List.filterMap_cons, hoa]
        rw [hrw]
        simpa [getOpt, hk] using ih

theorem getOpt_pick_mem (o : Options) (al : List String) (k : String)
    (h : k ∈ al) : getOpt (pickOpts o al) k = getOpt o k := by
  induction al with
  | nil => exact absurd h (by simp)
  | cons a al' ih =>
    by_cases hk : a = k
    · subst hk
      cases hoa : getOpt o a with
      | none =>
        have hrw : pickOpts o (a :: al') = pickOpts o al' := by
          simp [pickOpts, List.filterMap_cons, hoa]
        rw [hrw, getOpt_pick_none o al' a hoa]
      | some v =>
        have hrw : pickOpts o (a :: al') = (a, v) :: pickOpts o al' := by
          simp [pickOpts, List.filterMap_cons, hoa]
        rw [hrw]
        simp [getOpt, hoa]
    · have hmem : k ∈ al' := by
        rcases List.mem_cons.mp h with h1 | h1
        · exact absurd h1.symm hk
        · exact h1
      cases hoa : getOpt o a with
      | none =>
        have hrw : pickOpts o (a :: al') = pickOpts o al' := by
          simp [pickOpts, List.filterMap_cons, hoa]
        rw [hrw]
        exact ih hmem
      | some v =>
        have hrw : pickOpts o (a :: al') = (a, v) :: pickOpts o al' := by
          simp [pickOpts, List.filterMap_cons, hoa]
        rw [hrw]
        simpa [getOpt, hk] using ih hmem

theorem keys_pick (o : Options) (al : List String) :
    (pickOpts o al).map Prod.fst = al.filter (fun k => (getOpt o k).isSome) := by
  induction al with
  | nil => simp [pickOpts]
  | cons a al' ih =>
    cases hoa : getOpt o a with
    | none =>
      have hrw : pickOpts o (a :: al') = pickOpts o al' := by
        simp [pickOpts, List.filterMap_cons, hoa]
      rw [hrw, ih]
      simp [List.filter_cons, hoa]
    | some v =>
      have hrw : pickOpts o (a :: al') = (a, v) :: pickOpts o al' := by
        simp [pickOpts, List.filterMap_cons, hoa]
      rw [hrw]
      simp only [List.map_cons, ih, List.filter_cons, hoa]
      simp

theorem hasKeyB_pick_sub (o : Options) (al : List String) (k : String)
    (h : hasKeyB (pickOpts o al) k = true) : k ∈ al := by
  have h1 : k ∈ (pickOpts o al).map Prod.fst := mem_keys_of_isSome _ _ h
  rw [keys_pick] at h1
  exact (List.mem_filter.mp h1).1

theorem nodup_keys_pick (o : Options) (al : List String) (h : al.Nodup) :
    ((pickOpts o al).map Prod.fst).Nodup := by
  rw [keys_pick]
  exact h.filter _

theorem hasKeyB_set_sub (o : Options) (k k' : String) (v : JsVal)
    (h : hasKeyB (setOpt o k v) k' = true) : k' = k ∨ hasKeyB o k' = true := by
  by_cases hk : k' = k
  · exact Or.inl hk
  · right
    rwa [hasKeyB, getOpt_setOpt_ne o k k' v hk] at h

theorem hasKeyB_extend_sub (s t : Options) (k : String) :
    ∀ (hx : hasKeyB (extendOpts t s) k = true),
      hasKeyB t k = true ∨ hasKeyB s k = true := by
  induction s generalizing t with
  | nil => intro hx; exact Or.inl hx
  | cons kv s' ih =>
    intro hx
    obtain ⟨a, v⟩ := kv
    have h2 := ih (setOpt t a v) hx
    rcases h2 with h2 | h2
    · rcases hasKeyB_set_sub t a k v h2 with h3 | h3
      · right
        subst h3
        simp [hasKeyB, getOpt]
      · exact Or.inl h3
    · right
      by_cases hk : a = k
      · simp [hasKeyB, getOpt, hk]
      · simp only [hasKeyB, getOpt, hk, if_false]
        exact h2

theorem getOpt_extend (t s : Options) (k : String)
    (hnd : (s.map Prod.fst).Nodup) :
    getOpt (extendOpts t s) k = (getOpt s k).elim (getOpt t k) some := by
  induction s generalizing t with
  | nil => simp [extendOpts, getOpt]
  | cons kv s' ih =>
    obtain ⟨a, v⟩ := kv
    simp only [List.map_cons, List.nodup_cons] at hnd
    have hext : extendOpts t ((a, v) :: s') = extendOpts (setOpt t a v) s' := rfl
    rw [hext, ih (setOpt t a v) hnd.2]
    by_cases hk : a = k
    · subst hk
      have h1 : getOpt s' a = none := getOpt_none_of_not_mem_keys s' a hnd.1
      simp [h1, getOpt, getOpt_setOpt_same]
    · cases hsk : getOpt s' k with
      | none => simp [getOpt, hk, hsk, getOpt_setOpt_ne t a k v (fun hh => hk hh.symm)]
      | some w => simp [getOpt, hk, hsk]

/-! ### Normalization-step lemmas -/

theorem getOpt_delOpt_same (o : Options) (k : String) :
    getOpt (delOpt o k) k = none := by
  induction o with
  | nil => simp [delOpt, getOpt]
  | cons kv rest ih =>
    obtain ⟨a, b⟩ := kv
    by_cases ha : a = k
    · simp [delOpt, ha, ih]
    · simp [delOpt, getOpt, ha, ih]

theorem and_not_false {a b : Bool} (h : (a && !b) = false) (ha : a = true) :
    b = true := by
  cases b
  · simp [ha] at h
  · rfl

theorem truthyO_some_of_truthy {x : Option JsVal} (h : truthyO x = true) :
    ∃ w, x = some w ∧ truthy w = true := by
  cases x with
  | none => simp [truthyO] at h
  | some w => exact ⟨w, rfl, h⟩

theorem getOpt_stepTok_ne (o : Options) (k : String)
    (h : k ≠ "watson-token") : getOpt (stepTok o) k = getOpt o k := by
  unfold stepTok
  split
  · exact getOpt_setOpt_ne o "watson-token" k _ h
  · rfl

theorem getOpt_stepCT_ne (o : Options) (k : String)
    (h : k ≠ "content-type") : getOpt (stepCT o) k = getOpt o k := by
  unfold stepCT
  split
  · exact getOpt_setOpt_ne o "content-type" k _ h
  · rfl

theorem getOpt_stepOptOut_ne (o : Options) (k : String)
    (h : k ≠ "X-Watson-Learning-Opt-Out") :
    getOpt (stepOptOut o) k = getOpt o k := by
  unfold stepOptOut
  split
  · exact getOpt_setOpt_ne o "X-Watson-Learning-Opt-Out" k _ h
  · rfl

theorem getOpt_stepCust_ne (o : Options) (k : String)
    (h1 : k ≠ "language_customization_id") (h2 : k ≠ "customization_id") :
    getOpt (stepCust o) k = getOpt o k := by
  unfold stepCust
  split
  · rw [getOpt_delOpt_ne _ _ _ h2,
      getOpt_setOpt_ne o "language_customization_id" k _ h1]
  · rfl

theorem stepTok_id (o : Options)
    (h : (truthyO (getOpt o "token") && !truthyO (getOpt o "watson-token")) = false) :
    stepTok o = o := by
  unfold stepTok
  simp [h]

theorem stepCT_id (o : Options)
    (h : (truthyO (getOpt o "content_type") && !truthyO (getOpt o "content-type")) = false) :
    stepCT o = o := by
  unfold stepCT
  simp [h]

theorem stepOptOut_id (o : Options)
    (h : (truthyO (getOpt o "X-WDC-PL-OPT-OUT") &&
      !truthyO (getOpt o "X-Watson-Learning-Opt-Out")) = false) :
    stepOptOut o = o := by
  unfold stepOptOut
  simp [h]

theorem stepCust_id (o : Options)
    (h : (truthyO (getOpt o "customization_id") &&
      !truthyO (getOpt o "language_customization_id")) = false) :
    stepCust o = o := by
  unfold stepCust
  simp [h]

theorem truthy_wt_after_stepTok (o : Options)
    (hp : truthyO (getOpt (stepTok o) "token") = true) :
    truthyO (getOpt (stepTok o) "watson-token") = true := by
  unfold stepTok at hp ⊢
  cases hg : (truthyO (getOpt o "token") && !truthyO (getOpt o "watson-token")) with
  | false =>
    simp only [hg, Bool.false_eq_true, if_false] at hp ⊢
    exact and_not_false hg hp
  | true =>
    simp only [hg, if_true]
    rw [Bool.and_eq_true] at hg
    obtain ⟨ha, _⟩ := hg
    obtain ⟨w, hw, htw⟩ := truthyO_some_of_truthy ha
    rw [getOpt_setOpt_same, hw]
    simpa [truthyO] using htw

theorem truthy_ct_after_stepCT (o : Options)
    (hp : truthyO (getOpt (stepCT o) "content_type") = true) :
    truthyO (getOpt (stepCT o) "content-type") = true := by
  unfold stepCT at hp ⊢
  cases hg : (truthyO (getOpt o "content_type") && !truthyO (getOpt o "content-type")) with
  | false =>
    simp only [hg, Bool.false_eq_true, if_false] at hp ⊢
    exact and_not_false hg hp
  | true =>
    simp only [hg, if_true]
    rw [Bool.and_eq_true] at hg
    obtain ⟨ha, _⟩ := hg
    obtain ⟨w, hw, htw⟩ := truthyO_some_of_truthy ha
    rw [getOpt_setOpt_same, hw]
    simpa [truthyO] using htw

theorem truthy_opt_after_stepOptOut (o : Options)
    (hp : truthyO (getOpt (stepOptOut o) "X-WDC-PL-OPT-OUT") = true) :
    truthyO (getOpt (stepOptOut o) "X-Watson-Learning-Opt-Out") = true := by
  unfold stepOptOut at hp ⊢
  cases hg : (truthyO (getOpt o "X-WDC-PL-OPT-OUT") &&
      !truthyO (getOpt o "X-Watson-Learning-Opt-Out")) with
  | false =>
    simp only [hg, Bool.false_eq_true, if_false] at hp ⊢
    exact and_not_false hg hp
  | true =>
    simp only [hg, if_true]
    rw [Bool.and_eq_true] at hg
    obtain ⟨ha, _⟩ := hg
    obtain ⟨w, hw, htw⟩ := truthyO_some_of_truthy ha
    rw [getOpt_setOpt_same, hw]
    simpa [truthyO] using htw

theorem truthy_cust_after_stepCust (o : Options)
    (hp : truthyO (getOpt (stepCust o) "customization_id") = true) :
    truthyO (getOpt (stepCust o) "language_customization_id") = true := by
  unfold stepCust at hp ⊢
  cases hg : (truthyO (getOpt o "customization_id") &&
      !truthyO (getOpt o "language_customization_id")) with
  | false =>
    simp only [hg, Bool.false_eq_true, if_false] at hp ⊢
    exact and_not_false hg hp
  | true =>
    simp only [hg, if_true] at hp
    rw [getOpt_delOpt_same] at hp
    simp [truthyO] at hp

theorem norm_guard_tok (o : Options)
    (hp : truthyO (getOpt (normalizeNames o) "token") = true) :
    truthyO (getOpt (normalizeNames o) "watson-token") = true := by
  unfold normalizeNames at hp ⊢
  rw [getOpt_stepCust_ne _ _ (by decide) (by decide),
    getOpt_stepOptOut_ne _ _ (by decide), getOpt_stepCT_ne _ _ (by decide)] at hp
  rw [getOpt_stepCust_ne _ _ (by decide) (by decide),
    getOpt_stepOptOut_ne _ _ (by decide), getOpt_stepCT_ne _ _ (by decide)]
  exact truthy_wt_after_stepTok o hp

theorem norm_guard_ct (o : Options)
    (hp : truthyO (getOpt (normalizeNames o) "content_type") = true) :
    truthyO (getOpt (normalizeNames o) "content-type") = true := by
  unfold normalizeNames at hp ⊢
  rw [getOpt_stepCust_ne _ _ (by decide) (by decide),
    getOpt_stepOptOut_ne _ _ (by decide)] at hp
  rw [getOpt_stepCust_ne _ _ (by decide) (by decide),
    getOpt_stepOptOut_ne _ _ (by decide)]
  exact truthy_ct_after_stepCT (stepTok o) hp

theorem norm_guard_opt (o : Options)
    (hp : truthyO (getOpt (normalizeNames o) "X-WDC-PL-OPT-OUT") = true) :
    truthyO (getOpt (normalizeNames o) "X-Watson-Learning-Opt-Out") = true := by
  unfold normalizeNames at hp ⊢
  rw [getOpt_stepCust_ne _ _ (by decide) (by decide)] at hp
  rw [getOpt_stepCust_ne _ _ (by decide) (by decide)]
  exact truthy_opt_after_stepOptOut (stepCT (stepTok o)) hp

theorem norm_guard_cust (o : Options)
    (hp : truthyO (getOpt (normalizeNames o) "customization_id") = true) :
    truthyO (getOpt (normalizeNames o) "language_customization_id") = true := by
  unfold normalizeNames at hp ⊢
  exact truthy_cust_after_stepCust (stepOptOut (stepCT (stepTok o))) hp

theorem guard_false_of_imp {a b : Bool} (h : a = true → b = true) :
    (a && !b) = false := by
  cases a
  · simp
  · simp [h rfl]

theorem normalizeNames_idem (o : Options) :
    normalizeNames (normalizeNames o) = normalizeNames o := by
  have g1 := guard_false_of_imp (norm_guard_tok o)
  have g2 := guard_false_of_imp (norm_guard_ct o)
  have g3 := guard_false_of_imp (norm_guard_opt o)
  have g4 := guard_false_of_imp (norm_guard_cust o)
  show stepCust (stepOptOut (stepCT (stepTok (normalizeNames o)))) = normalizeNames o
  rw [stepTok_id _ g1, stepCT_id _ g2, stepOptOut_id _ g3, stepCust_id _ g4]

theorem norm_preserve_wt (o : Options)
    (h : truthyO (getOpt o "watson-token") = true) :
    getOpt (normalizeNames o) "watson-token" = getOpt o "watson-token" := by
  have e1 : stepTok o = o := stepTok_id o (by rw [h]; simp)
  show getOpt (stepCust (stepOptOut (stepCT (stepTok o)))) "watson-token" = _
  rw [e1, getOpt_stepCust_ne _ _ (by decide) (by decide),
    getOpt_stepOptOut_ne _ _ (by decide), getOpt_stepCT_ne _ _ (by decide)]

theorem norm_preserve_ct (o : Options)
    (h : truthyO (getOpt o "content-type") = true) :
    getOpt (normalizeNames o) "content-type" = getOpt o "content-type" := by
  have hct : getOpt (stepTok o) "content-type" = getOpt o "content-type" :=
    getOpt_stepTok_ne _ _ (by decide)
  have e2 : stepCT (stepTok o) = stepTok o := stepCT_id _ (by rw [hct, h]; simp)
  show getOpt (stepCust (stepOptOut (stepCT (stepTok o)))) "content-type" = _
  rw [getOpt_stepCust_ne _ _ (by decide) (by decide),
    getOpt_stepOptOut_ne _ _ (by decide), e2, hct]

theorem norm_preserve_opt (o : Options)
    (h : truthyO (getOpt o "X-Watson-Learning-Opt-Out") = true) :
    getOpt (normalizeNames o) "X-Watson-Learning-Opt-Out" =
      getOpt o "X-Watson-Learning-Opt-Out" := by
  have hx : getOpt (stepCT (stepTok o)) "X-Watson-Learning-Opt-Out" =
      getOpt o "X-Watson-Learning-Opt-Out" := by
    rw [getOpt_stepCT_ne _ _ (by decide), getOpt_stepTok_ne _ _ (by decide)]
  have e3 : stepOptOut (stepCT (stepTok o)) = stepCT (stepTok o) :=
    stepOptOut_id _ (by rw [hx, h]; simp)
  show getOpt (stepCust (stepOptOut (stepCT (stepTok o))))
      "X-Watson-Learning-Opt-Out" = _
  rw [getOpt_stepCust_ne _ _ (by decide) (by decide), e3, hx]

theorem norm_preserve_lang (o : Options)
    (h : truthyO (getOpt o "language_customization_id") = true) :
    getOpt (normalizeNames o) "language_customization_id" =
      getOpt o "language_customization_id" := by
  have hl : getOpt (stepOptOut (stepCT (stepTok o))) "language_customization_id" =
      getOpt o "language_customization_id" := by
    rw [getOpt_stepOptOut_ne _ _ (by decide), getOpt_stepCT_ne _ _ (by decide),
      getOpt_stepTok_ne _ _ (by decide)]
  have e4 : stepCust (stepOptOut (stepCT (stepTok o))) =
      stepOptOut (stepCT (stepTok o)) :=
    stepCust_id _ (by rw [hl, h]; simp)
  show getOpt (stepCust (stepOptOut (stepCT (stepTok o))))
      "language_customization_id" = _
  rw [e4, hl]

theorem norm_preserve_model (o : Options) :
    getOpt (normalizeNames o) "model" = getOpt o "model" := by
  show getOpt (stepCust (stepOptOut (stepCT (stepTok o)))) "model" = _
  rw [getOpt_stepCust_ne _ _ (by decide) (by decide),
    getOpt_stepOptOut_ne _ _ (by decide), getOpt_stepCT_ne _ _ (by decide),
    getOpt_stepTok_ne _ _ (by decide)]

theorem queryOf_model (o : Options) :
    getOpt (queryOf o) "model" =
      (if hasKeyB o "model" = true then getOpt o "model"
       else if hasKeyB o "language_customization_id" = true then none
       else some (JsVal.str "en-US_BroadbandModel")) := by
  unfold queryOf
  have hnd := nodup_keys_pick o QUERY_PARAMS_ALLOWED (by decide)
  rw [getOpt_extend _ _ _ hnd]
  have hp : getOpt (pickOpts o QUERY_PARAMS_ALLOWED) "model" = getOpt o "model" :=
    getOpt_pick_mem _ _ _ (by decide)
  by_cases hl : hasKeyB o "language_customization_id" = true
  · rw [if_pos hl]
    have hl2 : (getOpt o "language_customization_id").isSome = true := hl
    cases hm : getOpt o "model" with
    | none => simp [hasKeyB, hm, hp, hl2]
    | some v => simp [hasKeyB, hm, hp]
  · rw [if_neg hl]
    have hl2 : getOpt o "language_customization_id" = none :=
      Option.not_isSome_iff_eq_none.mp (by simpa [hasKeyB] using hl)
    cases hm : getOpt o "model" with
    | none => simp [hasKeyB, hm, hp, hl2, getOpt]
    | some v => simp [hasKeyB, hm, hp]

/-! ### State-machine helper lemmas -/

theorem sendFrame_opened (s : St) (f : Frame) (h : s.sock = SockSt.opened) :
    sendFrame s f = { s with sent := s.sent ++ [f] } := by
  unfold sendFrame
  rw [h]

theorem sendFrame_closing (s : St) (f : Frame) (h : s.sock = SockSt.closing) :
    sendFrame s f = s := by
  unfold sendFrame
  rw [h]

theorem sendFrame_closed (s : St) (f : Frame) (h : s.sock = SockSt.closed) :
    sendFrame s f = s := by
  unfold sendFrame
  rw [h]

theorem sendFrame_connecting (s : St) (f : Frame) (h : s.sock = SockSt.connecting) :
    sendFrame s f = { s with crashed := true } := by
  unfold sendFrame
  rw [h]

theorem sendFrame_noSocket (s : St) (f : Frame) (h : s.sock = SockSt.noSocket) :
    sendFrame s f = { s with crashed := true } := by
  unfold sendFrame
  rw [h]

theorem afterSendCheck_shape (s : St) : ∃ a b,
    afterSendCheck s = { s with cbInvoked := a, pendingCbs := b } := by
  unfold afterSendCheck
  split
  · exact ⟨s.cbInvoked + 1, s.pendingCbs, rfl⟩
  · exact ⟨s.cbInvoked, s.pendingCbs + 1, rfl⟩

theorem afterSendCheck_cb (s : St)
    (h : (afterSendCheck s).cbInvoked ≠ s.cbInvoked) : s.buffered ≤ s.hwm := by
  unfold afterSendCheck at h
  by_cases hb : s.buffered ≤ s.hwm
  · exact hb
  · rw [if_neg hb] at h
    exact absurd rfl h

theorem sendThen_opened (s : St) (f : Frame) (hs : s.sock = SockSt.opened)
    (hc : s.crashed = false) : ∃ a b,
    sendThen s f = { s with sent := s.sent ++ [f], cbInvoked := a, pendingCbs := b } ∧
      (a ≠ s.cbInvoked → s.buffered ≤ s.hwm) := by
  unfold sendThen
  rw [sendFrame_opened s f hs]
  have hcond : ¬(({ s with sent := s.sent ++ [f] } : St).crashed = true) := by
    simp [hc]
  rw [if_neg hcond]
  obtain ⟨a, b, hab⟩ := afterSendCheck_shape { s with sent := s.sent ++ [f] }
  refine ⟨a, b, hab, fun hne => ?_⟩
  have := afterSendCheck_cb { s with sent := s.sent ++ [f] }
  rw [hab] at this
  exact this hne

theorem sendThen_closingOrClosed (s : St) (f : Frame)
    (hs : s.sock = SockSt.closing ∨ s.sock = SockSt.closed)
    (hc : s.crashed = false) : ∃ a b,
    sendThen s f = { s with cbInvoked := a, pendingCbs := b } ∧
      (a ≠ s.cbInvoked → s.buffered ≤ s.hwm) := by
  unfold sendThen
  have hcond : ¬(s.crashed = true) := by simp [hc]
  rcases hs with hs | hs
  · rw [sendFrame_closing s f hs]
    rw [if_neg hcond]
    obtain ⟨a, b, hab⟩ := afterSendCheck_shape s
    refine ⟨a, b, hab, fun hne => ?_⟩
    have h2 := afterSendCheck_cb s
    rw [hab] at h2
    exact h2 hne
  · rw [sendFrame_closed s f hs]
    rw [if_neg hcond]
    obtain ⟨a, b, hab⟩ := afterSendCheck_shape s
    refine ⟨a, b, hab, fun hne => ?_⟩
    have h2 := afterSendCheck_cb s
    rw [hab] at h2
    exact h2 hne

theorem sendThen_connecting (s : St) (f : Frame) (hs : s.sock = SockSt.connecting) :
    sendThen s f = { s with crashed := true } := by
  unfold sendThen
  rw [sendFrame_connecting s f hs]
  simp

theorem sendThen_noSocket (s : St) (f : Frame) (hs : s.sock = SockSt.noSocket) :
    sendThen s f = { s with crashed := true } := by
  unfold sendThen
  rw [sendFrame_noSocket s f hs]
  simp

theorem pushOut_shape (s : St) (o : Out) : ∃ os es,
    pushOut s o = { s with outs := os, errs := es } := by
  unfold pushOut
  split
  · exact ⟨s.outs, s.errs ++ ["push after EOF"], rfl⟩
  · exact ⟨s.outs ++ [o], s.errs, rfl⟩

theorem pushOut_not_ended (s : St) (o : Out) (h : s.ended = false) :
    pushOut s o = { s with outs := s.outs ++ [o] } := by
  unfold pushOut
  simp [h]

theorem textStep_shape (s : St) (r : RResult) : ∃ os es cr,
    textStep s r = { s with outs := os, errs := es, crashed := cr } := by
  unfold textStep
  split
  · exact ⟨s.outs, s.errs, s.crashed, rfl⟩
  split
  · cases halts : r.alternatives with
    | none => exact ⟨s.outs, s.errs, s.crashed, by simp⟩
    | some l =>
      cases hh : l.head? with
      | none => exact ⟨s.outs, s.errs, true, by simp [hh]⟩
      | some a =>
        cases ht : a.transcript with
        | none => exact ⟨s.outs, s.errs, true, by simp [hh, ht]⟩
        | some t =>
          obtain ⟨os, es, hos⟩ := pushOut_shape s (Out.txt t)
          exact ⟨os, es, s.crashed, by simp [hh, ht, hos]⟩
  · exact ⟨s.outs, s.errs, s.crashed, rfl⟩

theorem textFold_shape (rs : List RResult) : ∀ s : St, ∃ os es cr,
    rs.foldl textStep s = { s with outs := os, errs := es, crashed := cr } := by
  induction rs with
  | nil => intro s; exact ⟨s.outs, s.errs, s.crashed, rfl⟩
  | cons r rs' ih =>
    intro s
    obtain ⟨os1, es1, cr1, h1⟩ := textStep_shape s r
    obtain ⟨os2, es2, cr2, h2⟩ := ih (textStep s r)
    refine ⟨os2, es2, cr2, ?_⟩
    rw [List.foldl_cons, h2, h1]

theorem countStop_append (l1 l2 : List Frame) :
    countStop (l1 ++ l2) = countStop l1 + countStop l2 := by
  simp [countStop, List.filter_append]

theorem countBinary_append (l1 l2 : List Frame) :
    countBinary (l1 ++ l2) = countBinary l1 + countBinary l2 := by
  simp [countBinary, List.filter_append]

theorem countStop_binary (c : Chunk) : countStop [Frame.binary c] = 0 := by
  simp [countStop, isStopFrame]

theorem countStop_stopMsg : countStop [Frame.json stopMsg] = 1 := by decide

theorem countStopActs_chunk (c : Chunk) (rest : List OAct) :
    countStopActs (OAct.chunk c :: rest) = countStopActs rest := by
  simp [countStopActs, List.filter_cons, isStopAct]

theorem countStopActs_stop (rest : List OAct) :
    countStopActs (OAct.stop :: rest) = countStopActs rest + 1 := by
  simp [countStopActs, List.filter_cons, isStopAct, Nat.add_comm]

theorem runPending_opened (acts : List OAct) : ∀ s : St,
    s.sock = SockSt.opened → s.crashed = false →
    ∃ t a b, runPending s acts =
      { s with sent := s.sent ++ t, cbInvoked := a, pendingCbs := b } ∧
      countStop t = countStopActs acts ∧
      (a ≠ s.cbInvoked → s.buffered ≤ s.hwm) := by
  induction acts with
  | nil =>
    intro s _ _
    refine ⟨[], s.cbInvoked, s.pendingCbs, by simp [runPending], by
      simp [countStop, countStopActs], fun h => absurd rfl h⟩
  | cons a rest ih =>
    intro s hs hc
    cases a with
    | chunk c =>
      have hrw : runPending s (OAct.chunk c :: rest) =
          runPending (sendThen s (Frame.binary c)) rest := by
        simp only [runPending, List.foldl_cons]
        rw [if_neg (by simp [hc] : ¬(s.crashed = true))]
      obtain ⟨x, y, hst, hcbx⟩ := sendThen_opened s (Frame.binary c) hs hc
      rw [hrw, hst]
      obtain ⟨t, a2, b2, heq, hcount, hcb⟩ :=
        ih { s with sent := s.sent ++ [Frame.binary c], cbInvoked := x, pendingCbs := y }
          (by simp [hs]) (by simp [hc])
      refine ⟨Frame.binary c :: t, a2, b2, ?_, ?_, ?_⟩
      · rw [heq]
        simp
      · have h1 : countStop (Frame.binary c :: t) = countStop t := by
          have h2 := countStop_append [Frame.binary c] t
          simpa [countStop_binary] using h2
        rw [h1, hcount, countStopActs_chunk]
      · intro hne
        by_cases hx : a2 = x
        · subst hx
          exact hcbx hne
        · simpa using hcb hx
    | stop =>
      have hrw : runPending s (OAct.stop :: rest) =
          runPending (sendFrame s (Frame.json stopMsg)) rest := by
        simp only [runPending, List.foldl_cons]
        rw [if_neg (by simp [hc] : ¬(s.crashed = true))]
      rw [hrw, sendFrame_opened s _ hs]
      obtain ⟨t, a2, b2, heq, hcount, hcb⟩ :=
        ih { s with sent := s.sent ++ [Frame.json stopMsg] } (by simp [hs]) (by simp [hc])
      refine ⟨Frame.json stopMsg :: t, a2, b2, ?_, ?_, ?_⟩
      · rw [heq]
        simp
      · rw [countStopActs_stop]
        have h1 : countStop (Frame.json stopMsg :: t) = countStop t + 1 := by
          have := countStop_append [Frame.json stopMsg] t
          simpa [countStop_stopMsg, Nat.add_comm] using this
        rw [h1, hcount]
      · intro hne
        simpa using hcb hne

theorem doMsg_shape (s : St) (f : RFrame) : ∃ ls sk os es cr,
    doMsg s f = { s with listening := ls, sock := sk, outs := os, errs := es,
                         crashed := cr } ∧
    (sk = s.sock ∨ (sk = closeReq s.sock ∧ s.sock ≠ SockSt.noSocket)) := by
  unfold doMsg
  by_cases h1 : s.sock = SockSt.noSocket
  · rw [if_pos h1]
    exact ⟨s.listening, s.sock, s.outs, s.errs, s.crashed, rfl, Or.inl rfl⟩
  · rw [if_neg h1]
    by_cases h2 : truthyS f.error = true
    · rw [if_pos h2]
      exact ⟨s.listening, s.sock, s.outs, s.errs ++ [f.error.getD ""], s.crashed,
        rfl, Or.inl rfl⟩
    · rw [if_neg h2]
      by_cases h3 : f.state = some "listening"
      · rw [if_pos h3]
        by_cases h4 : s.listening = true
        · rw [if_pos h4]
          exact ⟨false, closeReq s.sock, s.outs, s.errs, s.crashed, rfl,
            Or.inr ⟨rfl, h1⟩⟩
        · rw [if_neg h4]
          exact ⟨true, s.sock, s.outs, s.errs, s.crashed, rfl, Or.inl rfl⟩
      · rw [if_neg h3]
        by_cases h5 : s.objectMode = true
        · rw [if_pos h5]
          obtain ⟨os, es, hp⟩ := pushOut_shape s (Out.obj f)
          exact ⟨s.listening, s.sock, os, es, s.crashed, by rw [hp], Or.inl rfl⟩
        · rw [if_neg h5]
          cases hres : f.results with
          | some rs =>
            obtain ⟨os, es, cr, ht⟩ := textFold_shape rs s
            exact ⟨s.listening, s.sock, os, es, cr, ht, Or.inl rfl⟩
          | none =>
            exact ⟨s.listening, s.sock, s.outs, s.errs, s.crashed, rfl, Or.inl rfl⟩

theorem step_crashed (s : St) (e : Ev) (hc : s.crashed = true) : step s e = s := by
  unfold step
  rw [if_pos hc]

theorem step_write (s : St) (c : Chunk) (hc : s.crashed = false) :
    step s (Ev.write c) = doWrite s c := by
  unfold step
  rw [if_neg (by simp [hc])]

theorem step_msg (s : St) (f : RFrame) (hc : s.crashed = false) :
    step s (Ev.sockMsg f) = doMsg s f := by
  unfold step
  rw [if_neg (by simp [hc])]

theorem step_finish (s : St) (hc : s.crashed = false) :
    step s Ev.finishCall = doFinish s := by
  unfold step
  rw [if_neg (by simp [hc])]

theorem step_stop (s : St) (hc : s.crashed = false) :
    step s Ev.stopCall = doFinish s := by
  unfold step
  rw [if_neg (by simp [hc])]

theorem step_open_conn (s : St) (hc : s.crashed = false)
    (hs : s.sock = SockSt.connecting) :
    step s Ev.sockOpen =
      runPending
        { s with
            sock := SockSt.opened
            sent := s.sent ++ [Frame.json s.opening]
            pending := [] }
        s.pending := by
  unfold step
  rw [if_neg (by simp [hc]), hs]
  rfl

theorem step_open_other (s : St) (hc : s.crashed = false)
    (hs : s.sock ≠ SockSt.connecting) :
    step s Ev.sockOpen = s := by
  unfold step
  rw [if_neg (by simp [hc])]
  cases hv : s.sock
  case connecting => exact absurd hv hs
  all_goals rfl

theorem doWrite_finished (s : St) (c : Chunk) (h : s.finished = true) :
    doWrite s c = s := by
  unfold doWrite
  rw [if_pos h]

theorem doWrite_streaming (s : St) (c : Chunk) (hf : s.finished = false)
    (hi : s.initialized = true) : doWrite s c = sendThen s (Frame.binary c) := by
  unfold doWrite
  rw [if_neg (by simp [hf]), if_neg (by simp [hi])]

theorem doWrite_init_ct (s : St) (c : Chunk) (hf : s.finished = false)
    (hi : s.initialized = false)
    (hct : (!truthyO (getOpt s.opts "content-type") &&
      !truthyO (getOpt s.opts "content_type")) = false) :
    doWrite s c = doInitialize s c := by
  unfold doWrite
  rw [if_neg (by simp [hf]), if_pos (by simp [hi]), if_neg (by simp [hct])]

theorem doWrite_sniff (s : St) (c : Chunk) (ct : String) (hf : s.finished = false)
    (hi : s.initialized = false)
    (hct : (!truthyO (getOpt s.opts "content-type") &&
      !truthyO (getOpt s.opts "content_type")) = true)
    (hd : detect c = some ct) :
    doWrite s c =
      doInitialize { s with opts := setOpt s.opts "content-type" (JsVal.str ct) } c := by
  unfold doWrite
  rw [if_neg (by simp [hf]), if_pos (by simp [hi]), if_pos hct, hd]

theorem doWrite_sniff_fail (s : St) (c : Chunk) (hf : s.finished = false)
    (hi : s.initialized = false)
    (hct : (!truthyO (getOpt s.opts "content-type") &&
      !truthyO (getOpt s.opts "content_type")) = true)
    (hd : detect c = none) :
    doWrite s c = { s with errs := s.errs ++ ["UNRECOGNIZED_FORMAT"], ended := true } := by
  unfold doWrite
  rw [if_neg (by simp [hf]), if_pos (by simp [hi]), if_pos hct, hd]

theorem doFinish_finished (s : St) (h : s.finished = true) : doFinish s = s := by
  unfold doFinish
  rw [if_pos h]

theorem doFinish_opened (s : St) (hf : s.finished = false)
    (hs : s.sock = SockSt.opened) :
    doFinish s = { s with finished := true, sent := s.sent ++ [Frame.json stopMsg] } := by
  unfold doFinish
  rw [if_neg (by simp [hf]), if_pos (by simpa using hs)]
  rw [sendFrame_opened { s with finished := true } (Frame.json stopMsg) (by simpa using hs)]

theorem doFinish_notOpened (s : St) (hf : s.finished = false)
    (hs : s.sock ≠ SockSt.opened) :
    doFinish s = { s with finished := true, pending := s.pending ++ [OAct.stop] } := by
  unfold doFinish
  rw [if_neg (by simp [hf]), if_neg (by simpa using hs)]

theorem bool_not_true {b : Bool} (h : ¬(b = true)) : b = false := by
  cases b
  · rfl
  · exact absurd rfl h

theorem closeReq_ne_noSocket (x : SockSt) (h : x ≠ SockSt.noSocket) :
    closeReq x ≠ SockSt.noSocket := by
  cases x <;> simp [closeReq] at *

theorem closeReq_ne_connecting (x : SockSt) : closeReq x ≠ SockSt.connecting := by
  cases x <;> simp [closeReq]

theorem closeReq_ne_opened (x : SockSt) : closeReq x ≠ SockSt.opened := by
  cases x <;> simp [closeReq]

theorem invBase_of_fields (s s' : St) (h : InvBase s)
    (hsock : s'.sock = s.sock) (hop : s'.opening = s.opening)
    (hinit : s'.initialized = s.initialized)
    (hsent : s'.sent = s.sent ∨
      (s.sock = SockSt.opened ∧ ∃ t, s'.sent = s.sent ++ t)) :
    InvBase s' := by
  obtain ⟨h1, h2, h3, h4, h5⟩ := h
  rcases hsent with hsent | ⟨hso, t, hsent⟩
  · refine ⟨?_, ?_, ?_, ?_, ?_⟩
    · rw [hsock, hsent]; exact h1
    · rw [hsock, hop]; exact h2
    · rw [hsock, hsent]; exact h3
    · rw [hinit, hsock]; exact h4
    · rw [hsent]; exact h5
  · have hne : s.sent ≠ [] := h3 hso
    refine ⟨?_, ?_, ?_, ?_, ?_⟩
    · intro hx
      rw [hsock, hso] at hx
      rcases hx with hx | hx <;> exact absurd hx (by decide)
    · rw [hsock, hop]; exact h2
    · intro _
      rw [hsent]
      intro hemp
      rw [List.append_eq_nil] at hemp
      exact hne hemp.1
    · intro hin
      rw [hinit] at hin
      rw [hsock, hso]
      rw [h4 hin] at hso
      exact absurd hso (by decide)
    · intro f hf
      rw [hsent] at hf
      cases hv : s.sent with
      | nil => exact absurd hv hne
      | cons a l =>
        rw [hv] at hf
        simp only [List.cons_append, List.head?_cons, Option.some.injEq] at hf
        apply h5
        rw [hv, hf]
        rfl

theorem invBase_after_doInitialize (s2 : St) (c : Chunk) (hsent : s2.sent = []) :
    InvBase (doInitialize s2 c) := by
  unfold doInitialize
  refine ⟨?_, ?_, ?_, ?_, ?_⟩
  · intro _; exact hsent
  · intro _
    exact getOpt_setOpt_same _ _ _
  · intro hx
    exact absurd hx (by simp)
  · intro hx
    simp at hx
  · intro f hf
    rw [hsent] at hf
    simp at hf

theorem step_binMsg (s : St) (hc : s.crashed = false) :
    step s Ev.sockBinMsg =
      if s.sock = SockSt.noSocket then s
      else { s with errs := s.errs ++ ["Unexpected binary data received from server"] } := by
  unfold step
  rw [if_neg (by simp [hc])]

theorem step_badJson (s : St) (hc : s.crashed = false) :
    step s Ev.sockBadJson =
      if s.sock = SockSt.noSocket then s
      else { s with errs := s.errs ++ ["Invalid JSON received from service:"] } := by
  unfold step
  rw [if_neg (by simp [hc])]

theorem step_err (s : St) (hc : s.crashed = false) :
    step s Ev.sockErr =
      if s.sock = SockSt.noSocket then s
      else { s with listening := false,
                    errs := s.errs ++ ["WebSocket connection error"],
                    ended := true } := by
  unfold step
  rw [if_neg (by simp [hc])]

theorem step_close (s : St) (hc : s.crashed = false) :
    step s Ev.sockClose =
      if s.sock = SockSt.noSocket then s
      else { s with listening := false, ended := true, sock := SockSt.closed } := by
  unfold step
  rw [if_neg (by simp [hc])]

theorem step_tick (s : St) (hc : s.crashed = false) :
    step s Ev.tick =
      if 0 < s.pendingCbs ∧ s.buffered ≤ s.hwm then
        { s with pendingCbs := s.pendingCbs - 1, cbInvoked := s.cbInvoked + 1 }
      else s := by
  unfold step
  rw [if_neg (by simp [hc])]

theorem step_setBuffered (s : St) (n : Nat) (hc : s.crashed = false) :
    step s (Ev.setBuffered n) = { s with buffered := n } := by
  unfold step
  rw [if_neg (by simp [hc])]

theorem invBase_step (s : St) (e : Ev) (h : InvBase s) : InvBase (step s e) := by
  cases hcv : s.crashed with
  | true =>
    rw [step_crashed s e hcv]
    exact h
  | false =>
    cases e with
    | write c =>
      rw [step_write s c hcv]
      by_cases hf : s.finished = true
      · rw [doWrite_finished s c hf]
        exact h
      · have hf2 : s.finished = false := bool_not_true hf
        by_cases hi : s.initialized = true
        · rw [doWrite_streaming s c hf2 hi]
          cases hsv : s.sock with
          | opened =>
            obtain ⟨a, b, hsend, _⟩ := sendThen_opened s (Frame.binary c) hsv hcv
            rw [hsend]
            exact invBase_of_fields s _ h rfl rfl rfl
              (Or.inr ⟨hsv, [Frame.binary c], rfl⟩)
          | closing =>
            obtain ⟨a, b, hsend, _⟩ :=
              sendThen_closingOrClosed s (Frame.binary c) (Or.inl hsv) hcv
            rw [hsend]
            exact invBase_of_fields s _ h rfl rfl rfl (Or.inl rfl)
          | closed =>
            obtain ⟨a, b, hsend, _⟩ :=
              sendThen_closingOrClosed s (Frame.binary c) (Or.inr hsv) hcv
            rw [hsend]
            exact invBase_of_fields s _ h rfl rfl rfl (Or.inl rfl)
          | connecting =>
            rw [sendThen_connecting s (Frame.binary c) hsv]
            exact invBase_of_fields s _ h rfl rfl rfl (Or.inl rfl)
          | noSocket =>
            rw [sendThen_noSocket s (Frame.binary c) hsv]
            exact invBase_of_fields s _ h rfl rfl rfl (Or.inl rfl)
        · have hi2 : s.initialized = false := bool_not_true hi
          have hsent0 : s.sent = [] := h.1 (Or.inl (h.2.2.2.1 hi2))
          cases hct : (!truthyO (getOpt s.opts "content-type") &&
              !truthyO (getOpt s.opts "content_type")) with
          | false =>
            rw [doWrite_init_ct s c hf2 hi2 hct]
            exact invBase_after_doInitialize s c hsent0
          | true =>
            cases hd : detect c with
            | some ct =>
              rw [doWrite_sniff s c ct hf2 hi2 hct hd]
              exact invBase_after_doInitialize _ c hsent0
            | none =>
              rw [doWrite_sniff_fail s c hf2 hi2 hct hd]
              exact invBase_of_fields s _ h rfl rfl rfl (Or.inl rfl)
    | sockOpen =>
      by_cases hs : s.sock = SockSt.connecting
      · rw [step_open_conn s hcv hs]
        have hsent0 : s.sent = [] := h.1 (Or.inr hs)
        have hstart : getOpt s.opening "action" = some (JsVal.str "start") :=
          h.2.1 (by rw [hs]; decide)
        obtain ⟨t, a, b, heq, hcount, hcb⟩ := runPending_opened s.pending
          { s with sock := SockSt.opened,
                   sent := s.sent ++ [Frame.json s.opening], pending := [] }
          (by rfl) (by simpa using hcv)
        rw [heq]
        refine ⟨?_, ?_, ?_, ?_, ?_⟩
        · intro hx
          rcases hx with hx | hx <;> simp at hx
        · intro _
          exact hstart
        · intro _
          simp [hsent0]
        · intro hx
          exact absurd (h.2.2.2.1 hx) (by rw [hs]; decide)
        · intro f hf
          rw [hsent0] at hf
          simp only [List.nil_append, List.cons_append, List.head?_cons,
            Option.some.injEq] at hf
          rw [← hf]
          simp [isStartFrame, hstart]
      · rw [step_open_other s hcv hs]
        exact h
    | sockMsg f =>
      rw [step_msg s f hcv]
      obtain ⟨ls, sk, os, es, cr, heq, hsk⟩ := doMsg_shape s f
      rw [heq]
      rcases hsk with hsk | ⟨hsk, hns⟩
      · exact invBase_of_fields s _ h (by simp [hsk]) rfl rfl (Or.inl rfl)
      · refine ⟨?_, ?_, ?_, ?_, ?_⟩
        · intro hx
          simp only [hsk] at hx
          rcases hx with hx | hx
          · exact absurd hx (closeReq_ne_noSocket s.sock hns)
          · exact absurd hx (closeReq_ne_connecting s.sock)
        · intro _
          exact h.2.1 hns
        · intro hx
          simp only [hsk] at hx
          exact absurd hx (closeReq_ne_opened s.sock)
        · intro hx
          simp only at hx
          exact absurd (h.2.2.2.1 hx) hns
        · exact h.2.2.2.2
    | sockBinMsg =>
      rw [step_binMsg s hcv]
      by_cases hs : s.sock = SockSt.noSocket
      · rw [if_pos hs]
        exact h
      · rw [if_neg hs]
        exact invBase_of_fields s _ h rfl rfl rfl (Or.inl rfl)
    | sockBadJson =>
      rw [step_badJson s hcv]
      by_cases hs : s.sock = SockSt.noSocket
      · rw [if_pos hs]
        exact h
      · rw [if_neg hs]
        exact invBase_of_fields s _ h rfl rfl rfl (Or.inl rfl)
    | sockErr =>
      rw [step_err s hcv]
      by_cases hs : s.sock = SockSt.noSocket
      · rw [if_pos hs]
        exact h
      · rw [if_neg hs]
        exact invBase_of_fields s _ h rfl rfl rfl (Or.inl rfl)
    | sockClose =>
      rw [step_close s hcv]
      by_cases hs : s.sock = SockSt.noSocket
      · rw [if_pos hs]
        exact h
      · rw [if_neg hs]
        refine ⟨?_, ?_, ?_, ?_, ?_⟩
        · intro hx
          rcases hx with hx | hx <;> simp at hx
        · intro _
          exact h.2.1 hs
        · intro hx
          simp at hx
        · intro hx
          simp only at hx
          exact absurd (h.2.2.2.1 hx) hs
        · exact h.2.2.2.2
    | finishCall =>
      rw [step_finish s hcv]
      by_cases hf : s.finished = true
      · rw [doFinish_finished s hf]
        exact h
      · have hf2 : s.finished = false := bool_not_true hf
        by_cases hs : s.sock = SockSt.opened
        · rw [doFinish_opened s hf2 hs]
          exact invBase_of_fields s _ h rfl rfl rfl
            (Or.inr ⟨hs, [Frame.json stopMsg], rfl⟩)
        · rw [doFinish_notOpened s hf2 hs]
          exact invBase_of_fields s _ h rfl rfl rfl (Or.inl rfl)
    | stopCall =>
      rw [step_stop s hcv]
      by_cases hf : s.finished = true
      · rw [doFinish_finished s hf]
        exact h
      · have hf2 : s.finished = false := bool_not_true hf
        by_cases hs : s.sock = SockSt.opened
        · rw [doFinish_opened s hf2 hs]
          exact invBase_of_fields s _ h rfl rfl rfl
            (Or.inr ⟨hs, [Frame.json stopMsg], rfl⟩)
        · rw [doFinish_notOpened s hf2 hs]
          exact invBase_of_fields s _ h rfl rfl rfl (Or.inl rfl)
    | tick =>
      rw [step_tick s hcv]
      by_cases hx : 0 < s.pendingCbs ∧ s.buffered ≤ s.hwm
      · rw [if_pos hx]
        exact invBase_of_fields s _ h rfl rfl rfl (Or.inl rfl)
      · rw [if_neg hx]
        exact h
    | setBuffered n =>
      rw [step_setBuffered s n hcv]
      exact invBase_of_fields s _ h rfl rfl rfl (Or.inl rfl)

theorem countStopActs_append_chunk (l : List OAct) (c : Chunk) :
    countStopActs (l ++ [OAct.chunk c]) = countStopActs l := by
  simp [countStopActs, List.filter_append, isStopAct]

theorem countStopActs_append_stop (l : List OAct) :
    countStopActs (l ++ [OAct.stop]) = countStopActs l + 1 := by
  simp [countStopActs, List.filter_append, isStopAct]

theorem countStop_json_start (m : Options)
    (h : getOpt m "action" = some (JsVal.str "start")) :
    countStop [Frame.json m] = 0 := by
  simp [countStop, isStopFrame, h]

theorem invStop_of_fields (s s' : St) (h : InvStop s)
    (hsent : countStop s'.sent = countStop s.sent)
    (hpend : countStopActs s'.pending = countStopActs s.pending)
    (hfin : s'.finished = s.finished) : InvStop s' := by
  obtain ⟨h1, h2⟩ := h
  constructor
  · rw [hsent, hpend]
    exact h1
  · intro hf
    rw [hsent, hpend]
    exact h2 (by rw [← hfin]; exact hf)

theorem invStop_step (s : St) (e : Ev) (hb : InvBase s) (h : InvStop s) :
    InvStop (step s e) := by
  cases hcv : s.crashed with
  | true =>
    rw [step_crashed s e hcv]
    exact h
  | false =>
    cases e with
    | write c =>
      rw [step_write s c hcv]
      by_cases hf : s.finished = true
      · rw [doWrite_finished s c hf]
        exact h
      · have hf2 : s.finished = false := bool_not_true hf
        by_cases hi : s.initialized = true
        · rw [doWrite_streaming s c hf2 hi]
          cases hsv : s.sock with
          | opened =>
            obtain ⟨a, b, hsend, _⟩ := sendThen_opened s (Frame.binary c) hsv hcv
            rw [hsend]
            refine invStop_of_fields s _ h ?_ rfl rfl
            simp only
            rw [countStop_append, countStop_binary]
            omega
          | closing =>
            obtain ⟨a, b, hsend, _⟩ :=
              sendThen_closingOrClosed s (Frame.binary c) (Or.inl hsv) hcv
            rw [hsend]
            exact invStop_of_fields s _ h rfl rfl rfl
          | closed =>
            obtain ⟨a, b, hsend, _⟩ :=
              sendThen_closingOrClosed s (Frame.binary c) (Or.inr hsv) hcv
            rw [hsend]
            exact invStop_of_fields s _ h rfl rfl rfl
          | connecting =>
            rw [sendThen_connecting s (Frame.binary c) hsv]
            exact invStop_of_fields s _ h rfl rfl rfl
          | noSocket =>
            rw [sendThen_noSocket s (Frame.binary c) hsv]
            exact invStop_of_fields s _ h rfl rfl rfl
        · have hi2 : s.initialized = false := bool_not_true hi
          cases hct : (!truthyO (getOpt s.opts "content-type") &&
              !truthyO (getOpt s.opts "content_type")) with
          | false =>
            rw [doWrite_init_ct s c hf2 hi2 hct]
            refine invStop_of_fields s _ h rfl ?_ rfl
            unfold doInitialize
            simp only
            rw [countStopActs_append_chunk]
          | true =>
            cases hd : detect c with
            | some ct =>
              rw [doWrite_sniff s c ct hf2 hi2 hct hd]
              refine invStop_of_fields s _ h rfl ?_ rfl
              unfold doInitialize
              simp only
              rw [countStopActs_append_chunk]
            | none =>
              rw [doWrite_sniff_fail s c hf2 hi2 hct hd]
              exact invStop_of_fields s _ h rfl rfl rfl
    | sockOpen =>
      by_cases hs : s.sock = SockSt.connecting
      · rw [step_open_conn s hcv hs]
        have hstart : getOpt s.opening "action" = some (JsVal.str "start") :=
          hb.2.1 (by rw [hs]; decide)
        obtain ⟨t, a, b, heq, hcount, hcb⟩ := runPending_opened s.pending
          { s with sock := SockSt.opened,
                   sent := s.sent ++ [Frame.json s.opening], pending := [] }
          (by rfl) (by simpa using hcv)
        rw [heq]
        have hcs : countStop ((s.sent ++ [Frame.json s.opening]) ++ t) =
            countStop s.sent + countStopActs s.pending := by
          have hcount2 : countStop t = countStopActs s.pending := hcount
          rw [countStop_append, countStop_append, countStop_json_start _ hstart,
            hcount2]
          omega
        obtain ⟨h1, h2⟩ := h
        constructor
        · simp only
          rw [hcs]
          simpa [countStopActs] using h1
        · intro hf
          have h3 := h2 hf
          simp only
          rw [hcs]
          constructor
          · omega
          · simp [countStopActs]
      · rw [step_open_other s hcv hs]
        exact h
    | sockMsg f =>
      rw [step_msg s f hcv]
      obtain ⟨ls, sk, os, es, cr, heq, _⟩ := doMsg_shape s f
      rw [heq]
      exact invStop_of_fields s _ h rfl rfl rfl
    | sockBinMsg =>
      rw [step_binMsg s hcv]
      by_cases hs : s.sock = SockSt.noSocket
      · rw [if_pos hs]; exact h
      · rw [if_neg hs]; exact invStop_of_fields s _ h rfl rfl rfl
    | sockBadJson =>
      rw [step_badJson s hcv]
      by_cases hs : s.sock = SockSt.noSocket
      · rw [if_pos hs]; exact h
      · rw [if_neg hs]; exact invStop_of_fields s _ h rfl rfl rfl
    | sockErr =>
      rw [step_err s hcv]
      by_cases hs : s.sock = SockSt.noSocket
      · rw [if_pos hs]; exact h
      · rw [if_neg hs]; exact invStop_of_fields s _ h rfl rfl rfl
    | sockClose =>
      rw [step_close s hcv]
      by_cases hs : s.sock = SockSt.noSocket
      · rw [if_pos hs]; exact h
      · rw [if_neg hs]; exact invStop_of_fields s _ h rfl rfl rfl
    | finishCall =>
      rw [step_finish s hcv]
      by_cases hf : s.finished = true
      · rw [doFinish_finished s hf]
        exact h
      · have hf2 : s.finished = false := bool_not_true hf
        obtain ⟨hz1, hz2⟩ := h.2 hf2
        by_cases hs : s.sock = SockSt.opened
        · rw [doFinish_opened s hf2 hs]
          constructor
          · simp only
            rw [countStop_append, countStop_stopMsg, hz1, hz2]
          · intro hff
            exact Bool.noConfusion hff
        · rw [doFinish_notOpened s hf2 hs]
          constructor
          · simp only
            rw [countStopActs_append_stop, hz1, hz2]
          · intro hff
            exact Bool.noConfusion hff
    | stopCall =>
      rw [step_stop s hcv]
      by_cases hf : s.finished = true
      · rw [doFinish_finished s hf]
        exact h
      · have hf2 : s.finished = false := bool_not_true hf
        obtain ⟨hz1, hz2⟩ := h.2 hf2
        by_cases hs : s.sock = SockSt.opened
        · rw [doFinish_opened s hf2 hs]
          constructor
          · simp only
            rw [countStop_append, countStop_stopMsg, hz1, hz2]
          · intro hff
            exact Bool.noConfusion hff
        · rw [doFinish_notOpened s hf2 hs]
          constructor
          · simp only
            rw [countStopActs_append_stop, hz1, hz2]
          · intro hff
            exact Bool.noConfusion hff
    | tick =>
      rw [step_tick s hcv]
      by_cases hx : 0 < s.pendingCbs ∧ s.buffered ≤ s.hwm
      · rw [if_pos hx]; exact invStop_of_fields s _ h rfl rfl rfl
      · rw [if_neg hx]; exact h
    | setBuffered n =>
      rw [step_setBuffered s n hcv]
      exact invStop_of_fields s _ h rfl rfl rfl

theorem invDone_of_fields (s s' : St) (h : InvDone s)
    (hsent : countStop s'.sent = countStop s.sent)
    (hpend : countStopActs s'.pending = countStopActs s.pending)
    (hfin : s'.finished = s.finished) : InvDone s' := by
  obtain ⟨h1, h2, h3⟩ := h
  exact ⟨by rw [hfin]; exact h1, by rw [hsent]; exact h2, by rw [hpend]; exact h3⟩

theorem invDone_step (s : St) (e : Ev) (hb : InvBase s) (h : InvDone s) :
    InvDone (step s e) := by
  cases hcv : s.crashed with
  | true =>
    rw [step_crashed s e hcv]
    exact h
  | false =>
    cases e with
    | write c =>
      rw [step_write s c hcv, doWrite_finished s c h.1]
      exact h
    | sockOpen =>
      by_cases hs : s.sock = SockSt.connecting
      · rw [step_open_conn s hcv hs]
        have hstart : getOpt s.opening "action" = some (JsVal.str "start") :=
          hb.2.1 (by rw [hs]; decide)
        obtain ⟨t, a, b, heq, hcount, hcb⟩ := runPending_opened s.pending
          { s with sock := SockSt.opened,
                   sent := s.sent ++ [Frame.json s.opening], pending := [] }
          (by rfl) (by simpa using hcv)
        rw [heq]
        have hcount2 : countStop t = countStopActs s.pending := hcount
        refine ⟨h.1, ?_, ?_⟩
        · simp only
          rw [countStop_append, countStop_append, countStop_json_start _ hstart,
            hcount2, h.2.1, h.2.2]
        · simp [countStopActs]
      · rw [step_open_other s hcv hs]
        exact h
    | sockMsg f =>
      rw [step_msg s f hcv]
      obtain ⟨ls, sk, os, es, cr, heq, _⟩ := doMsg_shape s f
      rw [heq]
      exact invDone_of_fields s _ h rfl rfl rfl
    | sockBinMsg =>
      rw [step_binMsg s hcv]
      by_cases hs : s.sock = SockSt.noSocket
      · rw [if_pos hs]; exact h
      · rw [if_neg hs]; exact invDone_of_fields s _ h rfl rfl rfl
    | sockBadJson =>
      rw [step_badJson s hcv]
      by_cases hs : s.sock = SockSt.noSocket
      · rw [if_pos hs]; exact h
      · rw [if_neg hs]; exact invDone_of_fields s _ h rfl rfl rfl
    | sockErr =>
      rw [step_err s hcv]
      by_cases hs : s.sock = SockSt.noSocket
      · rw [if_pos hs]; exact h
      · rw [if_neg hs]; exact invDone_of_fields s _ h rfl rfl rfl
    | sockClose =>
      rw [step_close s hcv]
      by_cases hs : s.sock = SockSt.noSocket
      · rw [if_pos hs]; exact h
      · rw [if_neg hs]; exact invDone_of_fields s _ h rfl rfl rfl
    | finishCall =>
      rw [step_finish s hcv, doFinish_finished s h.1]
      exact h
    | stopCall =>
      rw [step_stop s hcv, doFinish_finished s h.1]
      exact h
    | tick =>
      rw [step_tick s hcv]
      by_cases hx : 0 < s.pendingCbs ∧ s.buffered ≤ s.hwm
      · rw [if_pos hx]; exact invDone_of_fields s _ h rfl rfl rfl
      · rw [if_neg hx]; exact h
    | setBuffered n =>
      rw [step_setBuffered s n hcv]
      exact invDone_of_fields s _ h rfl rfl rfl

theorem foldl_inv {P : St → Prop} (hstep : ∀ s e, P s → P (step s e)) :
    ∀ (l : List Ev) (s : St), P s → P (l.foldl step s) := by
  intro l
  induction l with
  | nil => intro s hs; exact hs
  | cons e rest ih =>
    intro s hs
    rw [List.foldl_cons]
    exact ih (step s e) (hstep s e hs)

theorem invBase_mk (opts : Options) (hwm : Nat) : InvBase (mkStream opts hwm) := by
  refine ⟨?_, ?_, ?_, ?_, ?_⟩
  · intro _; rfl
  · intro hx; exact absurd rfl hx
  · intro hx; simp [mkStream] at hx
  · intro _; rfl
  · intro f hf; simp [mkStream] at hf

theorem invStop_mk (opts : Options) (hwm : Nat) : InvStop (mkStream opts hwm) := by
  constructor
  · show countStop [] + countStopActs [] ≤ 1
    decide
  · intro _
    exact ⟨rfl, rfl⟩

theorem invBase_run (opts : Options) (hwm : Nat) (evs : List Ev) :
    InvBase (run opts hwm evs) :=
  foldl_inv invBase_step evs (mkStream opts hwm) (invBase_mk opts hwm)

theorem invBoth_run (opts : Options) (hwm : Nat) (evs : List Ev) :
    InvBase (run opts hwm evs) ∧ InvStop (run opts hwm evs) :=
  foldl_inv
    (fun s e (hp : InvBase s ∧ InvStop s) =>
      ⟨invBase_step s e hp.1, invStop_step s e hp.1 hp.2⟩)
    evs (mkStream opts hwm) ⟨invBase_mk opts hwm, invStop_mk opts hwm⟩

theorem textFold_outs (rs : List RResult) : ∀ s : St,
    s.crashed = false → s.ended = false → textCrashes rs = false →
    rs.foldl textStep s = { s with outs := s.outs ++ (finalTexts rs).map Out.txt } := by
  induction rs with
  | nil =>
    intro s _ _ _
    simp [finalTexts]
  | cons r rest ih =>
    intro s hc he hcr
    have hparts : (r.final &&
        (match r.alternatives with
         | some l =>
           (match l.head? with
            | some a => a.transcript.isNone
            | none => true)
         | none => false)) = false ∧ textCrashes rest = false := by
      have h2 := hcr
      simp only [textCrashes, List.any_cons, Bool.or_eq_false_iff] at h2
      exact ⟨h2.1, h2.2⟩
    rw [List.foldl_cons]
    cases hfin : r.final with
    | false =>
      have ht : textStep s r = s := by
        unfold textStep
        rw [if_neg (by simp [hc]), if_neg (by simp [hfin])]
      rw [ht, ih s hc he hparts.2]
      have hft : finalTexts (r :: rest) = finalTexts rest := by
        simp [finalTexts, List.filterMap_cons, hfin]
      rw [hft]
    | true =>
      cases halt : r.alternatives with
      | none =>
        have ht : textStep s r = s := by
          unfold textStep
          rw [if_neg (by simp [hc]), if_pos (by simp [hfin]), halt]
        rw [ht, ih s hc he hparts.2]
        have hft : finalTexts (r :: rest) = finalTexts rest := by
          simp [finalTexts, List.filterMap_cons, hfin, halt]
        rw [hft]
      | some l =>
        have hp1 := hparts.1
        rw [hfin, halt] at hp1
        simp only [Bool.true_and] at hp1
        cases hh : l.head? with
        | none =>
          rw [hh] at hp1
          simp at hp1
        | some a =>
          rw [hh] at hp1
          cases htr : a.transcript with
          | none =>
            simp [htr] at hp1
          | some tv =>
            have ht : textStep s r = { s with outs := s.outs ++ [Out.txt tv] } := by
              unfold textStep
              simp only [hc, Bool.false_eq_true, if_false, hfin, if_true, halt,
                hh, htr]
              rw [pushOut_not_ended s (Out.txt tv) he, hc]
            rw [ht, ih _ (by simp [hc]) (by simp [he]) hparts.2]
            have hft : finalTexts (r :: rest) = tv :: finalTexts rest := by
              simp [finalTexts, List.filterMap_cons, hfin, halt, hh, htr]
            rw [hft]
            simp

theorem doMsg_error (s : St) (f : RFrame) (hsock : s.sock ≠ SockSt.noSocket)
    (herr : truthyS f.error = true) :
    doMsg s f = { s with errs := s.errs ++ [f.error.getD ""] } := by
  unfold doMsg
  rw [if_neg hsock, if_pos herr]

theorem doMsg_listening_outs (s : St) (f : RFrame)
    (hsock : s.sock ≠ SockSt.noSocket) (herr : truthyS f.error = false)
    (hst : f.state = some "listening") : (doMsg s f).outs = s.outs := by
  unfold doMsg
  rw [if_neg hsock, if_neg (by simp [herr]), if_pos hst]
  split <;> rfl

theorem doMsg_obj (s : St) (f : RFrame) (hsock : s.sock ≠ SockSt.noSocket)
    (herr : truthyS f.error = false) (hst : f.state ≠ some "listening")
    (hobj : s.objectMode = true) (he : s.ended = false) :
    doMsg s f = { s with outs := s.outs ++ [Out.obj f] } := by
  unfold doMsg
  rw [if_neg hsock, if_neg (by simp [herr]), if_neg hst, if_pos hobj,
    pushOut_not_ended s (Out.obj f) he]

theorem doMsg_text (s : St) (f : RFrame) (rs : List RResult)
    (hsock : s.sock ≠ SockSt.noSocket) (herr : truthyS f.error = false)
    (hst : f.state ≠ some "listening") (hobj : s.objectMode = false)
    (hres : f.results = some rs) (hc : s.crashed = false) (he : s.ended = false)
    (hcr : textCrashes rs = false) :
    doMsg s f = { s with outs := s.outs ++ (finalTexts rs).map Out.txt } := by
  unfold doMsg
  rw [if_neg hsock, if_neg (by simp [herr]), if_neg hst, if_neg (by simp [hobj]),
    hres]
  exact textFold_outs rs s hc he hcr

theorem doMsg_noResults (s : St) (f : RFrame) (hsock : s.sock ≠ SockSt.noSocket)
    (herr : truthyS f.error = false) (hst : f.state ≠ some "listening")
    (hobj : s.objectMode = false) (hres : f.results = none) :
    doMsg s f = s := by
  unfold doMsg
  rw [if_neg hsock, if_neg (by simp [herr]), if_neg hst, if_neg (by simp [hobj]),
    hres]

theorem cb_unchanged (s : St) (e : Ev) (hb : ¬(s.buffered ≤ s.hwm)) :
    (step s e).cbInvoked = s.cbInvoked := by
  cases hcv : s.crashed with
  | true =>
    rw [step_crashed s e hcv]
  | false =>
    cases e with
    | write c =>
      rw [step_write s c hcv]
      by_cases hf : s.finished = true
      · rw [doWrite_finished s c hf]
      · have hf2 : s.finished = false := bool_not_true hf
        by_cases hi : s.initialized = true
        · rw [doWrite_streaming s c hf2 hi]
          cases hsv : s.sock with
          | opened =>
            obtain ⟨a, b, hsend, hcb⟩ := sendThen_opened s (Frame.binary c) hsv hcv
            rw [hsend]
            by_cases hax : a = s.cbInvoked
            · exact hax
            · exact absurd (hcb hax) hb
          | closing =>
            obtain ⟨a, b, hsend, hcb⟩ :=
              sendThen_closingOrClosed s (Frame.binary c) (Or.inl hsv) hcv
            rw [hsend]
            by_cases hax : a = s.cbInvoked
            · exact hax
            · exact absurd (hcb hax) hb
          | closed =>
            obtain ⟨a, b, hsend, hcb⟩ :=
              sendThen_closingOrClosed s (Frame.binary c) (Or.inr hsv) hcv
            rw [hsend]
            by_cases hax : a = s.cbInvoked
            · exact hax
            · exact absurd (hcb hax) hb
          | connecting =>
            rw [sendThen_connecting s (Frame.binary c) hsv]
          | noSocket =>
            rw [sendThen_noSocket s (Frame.binary c) hsv]
        · have hi2 : s.initialized = false := bool_not_true hi
          cases hct : (!truthyO (getOpt s.opts "content-type") &&
              !truthyO (getOpt s.opts "content_type")) with
          | false =>
            rw [doWrite_init_ct s c hf2 hi2 hct]
            rfl
          | true =>
            cases hd : detect c with
            | some ct =>
              rw [doWrite_sniff s c ct hf2 hi2 hct hd]
              rfl
            | none =>
              rw [doWrite_sniff_fail s c hf2 hi2 hct hd]
    | sockOpen =>
      by_cases hs : s.sock = SockSt.connecting
      · rw [step_open_conn s hcv hs]
        obtain ⟨t, a, b, heq, hcount, hcb⟩ := runPending_opened s.pending
          { s with sock := SockSt.opened,
                   sent := s.sent ++ [Frame.json s.opening], pending := [] }
          (by rfl) (by simpa using hcv)
        rw [heq]
        by_cases hax : a = s.cbInvoked
        · exact hax
        · exact absurd (hcb hax) hb
      · rw [step_open_other s hcv hs]
    | sockMsg f =>
      rw [step_msg s f hcv]
      obtain ⟨ls, sk, os, es, cr, heq, _⟩ := doMsg_shape s f
      rw [heq]
    | sockBinMsg =>
      rw [step_binMsg s hcv]
      by_cases hs : s.sock = SockSt.noSocket
      · rw [if_pos hs]
      · rw [if_neg hs]
    | sockBadJson =>
      rw [step_badJson s hcv]
      by_cases hs : s.sock = SockSt.noSocket
      · rw [if_pos hs]
      · rw [if_neg hs]
    | sockErr =>
      rw [step_err s hcv]
      by_cases hs : s.sock = SockSt.noSocket
      · rw [if_pos hs]
      · rw [if_neg hs]
    | sockClose =>
      rw [step_close s hcv]
      by_cases hs : s.sock = SockSt.noSocket
      · rw [if_pos hs]
      · rw [if_neg hs]
    | finishCall =>
      rw [step_finish s hcv]
      by_cases hf : s.finished = true
      · rw [doFinish_finished s hf]
      · have hf2 : s.finished = false := bool_not_true hf
        by_cases hs : s.sock = SockSt.opened
        · rw [doFinish_opened s hf2 hs]
        · rw [doFinish_notOpened s hf2 hs]
    | stopCall =>
      rw [step_stop s hcv]
      by_cases hf : s.finished = true
      · rw [doFinish_finished s hf]
      · have hf2 : s.finished = false := bool_not_true hf
        by_cases hs : s.sock = SockSt.opened
        · rw [doFinish_opened s hf2 hs]
        · rw [doFinish_notOpened s hf2 hs]
    | tick =>
      rw [step_tick s hcv]
      rw [if_neg (by intro hx; exact hb hx.2)]
    | setBuffered n =>
      rw [step_setBuffered s n hcv]

/-! ### Claim theorems -/

theorem detect_nonempty (c : Chunk) (ct : String) (h : detect c = some ct) :
    ct ≠ "" := by
  unfold detect at h
  split_ifs at h
  all_goals (injection h with h2; rw [← h2]; decide)

/-- C1 counterexample: pushing one chunk and letting the socket open, with
no listening frame ever received, still transmits one binary audio frame,
so binary audio is sent before the first inbound listening frame. -/
theorem C1_counterexample :
    countBinary (run cexOptsCT 16 cexTraceC1).sent = 1 ∧
    cexTraceC1.all (fun e => !isListeningEv e) = true := by
  decide

/-- C1 (amended): the first frame transmitted on the transport is always
the start handshake control message; in particular no binary audio
precedes the handshake.  The first audio chunk is transmitted as soon as
the socket opens, which can be before the first listening frame. -/
theorem C1_no_binary_before_handshake (opts : Options) (hwm : Nat)
    (evs : List Ev) (f : Frame)
    (hf : (run opts hwm evs).sent.head? = some f) : isStartFrame f = true :=
  (invBase_run opts hwm evs).2.2.2.2 f hf

/-- Witness for C1: on a concrete trace the earliest transmitted frame is
the handshake built from the options. -/
theorem C1_no_binary_before_handshake_witness :
    isStartFrame (Frame.json (buildHandshake cexOptsCT)) = true :=
  C1_no_binary_before_handshake cexOptsCT 16 cexTraceC1
    (Frame.json (buildHandshake cexOptsCT)) (by decide)

/-- C2 counterexample: after an inbound error frame the readable side is
not ended and a subsequent chunk push is still transmitted (two binary
frames in total), contradicting the claimed Errored-state shutdown. -/
theorem C2_counterexample :
    cexTraceC2.any isErrorFrameEv = true ∧
    (run cexOptsCT 16 cexTraceC2).ended = false ∧
    countBinary (run cexOptsCT 16 cexTraceC2).sent = 2 := by
  decide

/-- C2 (amended): an inbound error frame only emits an error event on the
stream; every other component of the state, in particular the readable
end flag, the finished flag, the socket state and the transmitted
frames, is unchanged, so later pushes are still sent. -/
theorem C2_error_frame_only_emits (s : St) (f : RFrame)
    (hc : s.crashed = false) (hsock : s.sock ≠ SockSt.noSocket)
    (herr : truthyS f.error = true) :
    step s (Ev.sockMsg f) = { s with errs := s.errs ++ [f.error.getD ""] } := by
  rw [step_msg s f hc]
  exact doMsg_error s f hsock herr

/-- Witness for C2 at a concrete opened stream and error frame. -/
theorem C2_error_frame_only_emits_witness :
    truthyS errFrame.error = true ∧
    step stateTxt (Ev.sockMsg errFrame) =
      { stateTxt with errs := stateTxt.errs ++ [errFrame.error.getD ""] } :=
  ⟨by decide,
   C2_error_frame_only_emits stateTxt errFrame (by decide) (by decide) (by decide)⟩

/-- C3 counterexample: a connection is opened, the remote closes it, and
only then is finish called; the finish call registers a deferred stop
that never fires, so zero stop frames are sent although finish was
called at least once on an initialized stream. -/
theorem C3_counterexample :
    cexTraceC3.any isFinishEv = true ∧
    (run cexOptsCT 16 cexTraceC3).initialized = true ∧
    countStop (run cexOptsCT 16 cexTraceC3).sent = 0 := by
  decide

/-- C3 (amended): at most one stop control frame is ever transmitted, for
any event sequence; and exactly one is transmitted whenever the first
finish call happens while the transport is open, regardless of how many
further finish or stop calls follow. -/
theorem C3_stop_sent_at_most_once :
    (∀ (opts : Options) (hwm : Nat) (evs : List Ev),
      countStop (run opts hwm evs).sent ≤ 1) ∧
    (∀ (opts : Options) (hwm : Nat) (pre post : List Ev),
      (run opts hwm pre).crashed = false →
      (run opts hwm pre).finished = false →
      (run opts hwm pre).sock = SockSt.opened →
      countStop (run opts hwm (pre ++ Ev.finishCall :: post)).sent = 1) := by
  constructor
  · intro opts hwm evs
    have h := (invBoth_run opts hwm evs).2.1
    omega
  · intro opts hwm pre post hc hf hs
    have hb := (invBoth_run opts hwm pre).1
    have hstop := (invBoth_run opts hwm pre).2
    have hrun : run opts hwm (pre ++ Ev.finishCall :: post) =
        post.foldl step (step (run opts hwm pre) Ev.finishCall) := by
      unfold run
      rw [List.foldl_append, List.foldl_cons]
    rw [hrun]
    have hz := hstop.2 hf
    have hdone : InvDone (step (run opts hwm pre) Ev.finishCall) := by
      rw [step_finish _ hc, doFinish_opened _ hf hs]
      refine ⟨rfl, ?_, ?_⟩
      · simp only
        rw [countStop_append, countStop_stopMsg, hz.1]
      · exact hz.2
    have hbase : InvBase (step (run opts hwm pre) Ev.finishCall) :=
      invBase_step _ Ev.finishCall hb
    have hres := foldl_inv
      (fun s e (hp : InvBase s ∧ InvDone s) =>
        ⟨invBase_step s e hp.1, invDone_step s e hp.1 hp.2⟩)
      post (step (run opts hwm pre) Ev.finishCall) ⟨hbase, hdone⟩
    exact hres.2.2.1

/-- Witness for C3: finish called twice on an open connection sends
exactly one stop frame. -/
theorem C3_stop_sent_at_most_once_witness :
    countStop (run cexOptsCT 16
      ([Ev.write [1], Ev.sockOpen] ++ Ev.finishCall :: [Ev.finishCall])).sent = 1 :=
  C3_stop_sent_at_most_once.2 cexOptsCT 16 [Ev.write [1], Ev.sockOpen]
    [Ev.finishCall] (by decide) (by decide) (by decide)

/-- C4: every key of the built query map is in the query allow-list,
every key of the built handshake is in the control allow-list, and the
handshake action field is always the string start, overriding any
caller-supplied action option. -/
theorem C4_allowlists (o : Options) :
    (∀ k, hasKeyB (buildQuery o) k = true → k ∈ QUERY_PARAMS_ALLOWED) ∧
    (∀ k, hasKeyB (buildHandshake o) k = true →
      k ∈ OPENING_MESSAGE_PARAMS_ALLOWED) ∧
    getOpt (buildHandshake o) "action" = some (JsVal.str "start") := by
  refine ⟨?_, ?_, ?_⟩
  · intro k hk
    unfold buildQuery queryOf at hk
    rcases hasKeyB_extend_sub _ _ _ hk with h | h
    · by_cases hl : hasKeyB (normalizeNames o) "language_customization_id" = true
      · rw [if_pos hl] at h
        exact hasKeyB_pick_sub _ _ _ h
      · rw [if_neg hl] at h
        have hk2 : k = "model" := by
          by_contra hkm
          have hne : ¬("model" = k) := fun hh => hkm hh.symm
          have hnone : getOpt [("model", JsVal.str "en-US_BroadbandModel")] k = none := by
            simp [getOpt, hne]
          rw [hasKeyB, hnone] at h
          simp at h
        rw [hk2]
        decide
    · exact hasKeyB_pick_sub _ _ _ h
  · intro k hk
    unfold buildHandshake handshakeOf at hk
    rcases hasKeyB_set_sub _ _ _ _ hk with h | h
    · rw [h]
      decide
    · exact hasKeyB_pick_sub _ _ _ h
  · exact getOpt_setOpt_same _ _ _

/-- Witness for C4: concrete options containing an unsupported key and a
caller-supplied action; the allow-list membership and the forced start
action are obtained from the theorem. -/
theorem C4_allowlists_witness :
    ("model" : String) ∈ QUERY_PARAMS_ALLOWED ∧
    ("keywords" : String) ∈ OPENING_MESSAGE_PARAMS_ALLOWED ∧
    getOpt (buildHandshake [("action", JsVal.str "evil"), ("keywords", JsVal.str "kw")])
      "action" = some (JsVal.str "start") :=
  ⟨(C4_allowlists [("model", JsVal.str "m")]).1 "model" (by decide),
   (C4_allowlists [("keywords", JsVal.str "kw")]).2.1 "keywords" (by decide),
   (C4_allowlists [("action", JsVal.str "evil"), ("keywords", JsVal.str "kw")]).2.2⟩

/-- C5 counterexample: in structured mode the pushed output event is the
full parsed frame, not just its results content: two frames with equal
results but different result_index values produce different output
events, so the output is not determined by the results content alone. -/
theorem C5_counterexample :
    stateObj.objectMode = true ∧
    resFrame1.results = resFrame2.results ∧
    decide ((step stateObj (Ev.sockMsg resFrame1)).outs =
      (step stateObj (Ev.sockMsg resFrame2)).outs) = false := by
  decide

/-- C5 (amended): a listening frame produces no output event; in
structured mode exactly one output event is emitted per inbound result
frame and it equals the full parsed frame unchanged; in text mode only
the first-alternative transcripts of final results are emitted and a
frame without a results array emits nothing. -/
theorem C5_output_shaping (s : St) (f : RFrame)
    (hc : s.crashed = false) (hsock : s.sock ≠ SockSt.noSocket)
    (herr : truthyS f.error = false) :
    ((f.state = some "listening" → (step s (Ev.sockMsg f)).outs = s.outs) ∧
     (f.state ≠ some "listening" → s.objectMode = true → s.ended = false →
       (step s (Ev.sockMsg f)).outs = s.outs ++ [Out.obj f]) ∧
     (f.state ≠ some "listening" → s.objectMode = false → s.ended = false →
       ∀ rs, f.results = some rs → textCrashes rs = false →
       (step s (Ev.sockMsg f)).outs = s.outs ++ (finalTexts rs).map Out.txt) ∧
     (f.state ≠ some "listening" → s.objectMode = false → f.results = none →
       (step s (Ev.sockMsg f)).outs = s.outs)) := by
  refine ⟨?_, ?_, ?_, ?_⟩
  · intro hst
    rw [step_msg s f hc]
    exact doMsg_listening_outs s f hsock herr hst
  · intro hst hobj he
    rw [step_msg s f hc, doMsg_obj s f hsock herr hst hobj he]
  · intro hst hobj he rs hres hcr
    rw [step_msg s f hc, doMsg_text s f rs hsock herr hst hobj hres hc he hcr]
  · intro hst hobj hres
    rw [step_msg s f hc, doMsg_noResults s f hsock herr hst hobj hres]

/-- Witness for C5: a concrete structured-mode stream pushes the full
frame as its single output event. -/
theorem C5_output_shaping_witness :
    stateObj.objectMode = true ∧
    (step stateObj (Ev.sockMsg resFrame1)).outs =
      stateObj.outs ++ [Out.obj resFrame1] :=
  ⟨by decide,
   (C5_output_shaping stateObj resFrame1 (by decide) (by decide) (by decide)).2.1
     (by decide) (by decide) (by decide)⟩

/-- C6: on the first pushed chunk with no configured content type, a
recognized magic-byte signature resolves the content type and the
connection proceeds (socket created, no error); unrecognized bytes fail
the push with the UNRECOGNIZED_FORMAT error, end the output, and never
create a transport socket. -/
theorem C6_content_sniffing (s : St) (c : Chunk)
    (hc : s.crashed = false) (hf : s.finished = false)
    (hi : s.initialized = false) (hsock : s.sock = SockSt.noSocket)
    (hct1 : truthyO (getOpt s.opts "content-type") = false)
    (hct2 : truthyO (getOpt s.opts "content_type") = false) :
    ((∀ ct, detect c = some ct →
       getOpt ((step s (Ev.write c)).opts) "content-type" = some (JsVal.str ct) ∧
       (step s (Ev.write c)).initialized = true ∧
       (step s (Ev.write c)).sock = SockSt.connecting ∧
       (step s (Ev.write c)).ended = s.ended ∧
       (step s (Ev.write c)).errs = s.errs) ∧
     (detect c = none →
       (step s (Ev.write c)).initialized = false ∧
       (step s (Ev.write c)).sock = SockSt.noSocket ∧
       (step s (Ev.write c)).sent = s.sent ∧
       (step s (Ev.write c)).ended = true ∧
       (step s (Ev.write c)).errs = s.errs ++ ["UNRECOGNIZED_FORMAT"])) := by
  have hctB : (!truthyO (getOpt s.opts "content-type") &&
      !truthyO (getOpt s.opts "content_type")) = true := by
    rw [hct1, hct2]
    rfl
  constructor
  · intro ct hd
    rw [step_write s c hc, doWrite_sniff s c ct hf hi hctB hd]
    have hne := detect_nonempty c ct hd
    have hset : getOpt (setOpt s.opts "content-type" (JsVal.str ct))
        "content-type" = some (JsVal.str ct) := getOpt_setOpt_same _ _ _
    have htr : truthyO (getOpt (setOpt s.opts "content-type" (JsVal.str ct))
        "content-type") = true := by
      rw [hset]
      simp [truthyO, truthy, hne]
    unfold doInitialize
    refine ⟨?_, rfl, rfl, rfl, rfl⟩
    simp only
    rw [norm_preserve_ct _ htr, hset]
  · intro hd
    rw [step_write s c hc, doWrite_sniff_fail s c hf hi hctB hd]
    exact ⟨hi, hsock, rfl, rfl, rfl⟩

/-- Witness for C6: a RIFF header resolves to the wav content type and a
socket is created; unknown bytes produce the UNRECOGNIZED_FORMAT error
and no socket. -/
theorem C6_content_sniffing_witness :
    detect wavChunk = some "audio/wav" ∧
    getOpt ((step (mkStream [] 16) (Ev.write wavChunk)).opts) "content-type" =
      some (JsVal.str "audio/wav") ∧
    detect badChunk = none ∧
    (step (mkStream [] 16) (Ev.write badChunk)).sock = SockSt.noSocket ∧
    (step (mkStream [] 16) (Ev.write badChunk)).errs =
      (mkStream [] 16).errs ++ ["UNRECOGNIZED_FORMAT"] := by
  have h1 := C6_content_sniffing (mkStream [] 16) wavChunk (by decide) (by decide)
    (by decide) (by decide) (by decide) (by decide)
  have h2 := C6_content_sniffing (mkStream [] 16) badChunk (by decide) (by decide)
    (by decide) (by decide) (by decide) (by decide)
  exact ⟨by decide, (h1.1 "audio/wav" (by decide)).1, by decide,
    (h2.2 (by decide)).2.1, (h2.2 (by decide)).2.2.2.2⟩

/-- C7: the write callback is never invoked in a state whose buffered
byte count exceeds the watermark; a poll tick with a parked callback and
a drained buffer invokes exactly one callback; and an accepted chunk in
the streaming state is transmitted immediately, appended in order. -/
theorem C7_backpressure :
    (∀ (s : St) (e : Ev),
      (step s e).cbInvoked ≠ s.cbInvoked → s.buffered ≤ s.hwm) ∧
    (∀ s : St, s.crashed = false → 0 < s.pendingCbs → s.buffered ≤ s.hwm →
      (step s Ev.tick).cbInvoked = s.cbInvoked + 1 ∧
      (step s Ev.tick).pendingCbs = s.pendingCbs - 1) ∧
    (∀ (s : St) (c : Chunk), s.crashed = false → s.finished = false →
      s.initialized = true → s.sock = SockSt.opened →
      (step s (Ev.write c)).sent = s.sent ++ [Frame.binary c]) := by
  refine ⟨?_, ?_, ?_⟩
  · intro s e h
    by_cases hb : s.buffered ≤ s.hwm
    · exact hb
    · exact absurd (cb_unchanged s e hb) h
  · intro s hc hp hb
    rw [step_tick s hc, if_pos ⟨hp, hb⟩]
    exact ⟨rfl, rfl⟩
  · intro s c hc hf hi hs
    rw [step_write s c hc, doWrite_streaming s c hf hi]
    obtain ⟨a, b, hsend, _⟩ := sendThen_opened s (Frame.binary c) hs hc
    rw [hsend]

/-- Witness for C7 at concrete states: a parked callback fires on a tick
once drained, invocation implies the buffer was at or below the
watermark, and a streaming write appends its chunk. -/
theorem C7_backpressure_witness :
    stateBP.buffered ≤ stateBP.hwm ∧
    (step stateBP Ev.tick).cbInvoked = stateBP.cbInvoked + 1 ∧
    (step stateTxt (Ev.write [7])).sent = stateTxt.sent ++ [Frame.binary [7]] :=
  ⟨C7_backpressure.1 stateBP Ev.tick (by decide),
   (C7_backpressure.2.1 stateBP (by decide) (by decide) (by decide)).1,
   C7_backpressure.2.2 stateTxt [7] (by decide) (by decide) (by decide) (by decide)⟩

/-- C8 counterexample: with only an acoustic customization id configured
and no model, the built query still contains the default model, so the
presence of a customization id does not suppress the default. -/
theorem C8_counterexample :
    hasKeyB [("acoustic_customization_id", JsVal.str "x")]
      "acoustic_customization_id" = true ∧
    hasKeyB [("acoustic_customization_id", JsVal.str "x")] "model" = false ∧
    getOpt (buildQuery [("acoustic_customization_id", JsVal.str "x")]) "model" =
      some (JsVal.str "en-US_BroadbandModel") := by
  decide

/-- C8 (amended): the model entry of the built query is the configured
model when one is present; otherwise it is absent exactly when the
normalized options carry a language_customization_id key, and the
default model otherwise.  Only the language customization id, possibly
arriving through the deprecated truthy customization_id, suppresses the
default; normalization never touches the model entry. -/
theorem C8_default_model (o : Options) :
    getOpt (buildQuery o) "model" =
      (if hasKeyB o "model" = true then getOpt o "model"
       else if hasKeyB (normalizeNames o) "language_customization_id" = true
       then none
       else some (JsVal.str "en-US_BroadbandModel")) ∧
    getOpt (normalizeNames o) "model" = getOpt o "model" := by
  have hp := norm_preserve_model o
  constructor
  · unfold buildQuery
    rw [queryOf_model (normalizeNames o)]
    have hk : hasKeyB (normalizeNames o) "model" = hasKeyB o "model" := by
      rw [hasKeyB, hasKeyB, hp]
    rw [hk, hp]
  · exact hp

/-- C9 counterexample: with the modern watson-token key present but
holding an empty string, the deprecated token mapping still fires and
overwrites it, so a mapping can fire although the modern field is
present. -/
theorem C9_counterexample :
    hasKeyB [("token", JsVal.str "t"), ("watson-token", JsVal.str "")]
      "watson-token" = true ∧
    getOpt (normalizeNames [("token", JsVal.str "t"),
      ("watson-token", JsVal.str "")]) "watson-token" = some (JsVal.str "t") := by
  decide

/-- C9 (amended): legacy-name normalization is idempotent, and each
mapping fires only when the corresponding modern field is absent or
falsy: whenever the modern field is truthy it is left unchanged. -/
theorem C9_normalization (o : Options) :
    normalizeNames (normalizeNames o) = normalizeNames o ∧
    (truthyO (getOpt o "watson-token") = true →
      getOpt (normalizeNames o) "watson-token" = getOpt o "watson-token") ∧
    (truthyO (getOpt o "content-type") = true →
      getOpt (normalizeNames o) "content-type" = getOpt o "content-type") ∧
    (truthyO (getOpt o "X-Watson-Learning-Opt-Out") = true →
      getOpt (normalizeNames o) "X-Watson-Learning-Opt-Out" =
        getOpt o "X-Watson-Learning-Opt-Out") ∧
    (truthyO (getOpt o "language_customization_id") = true →
      getOpt (normalizeNames o) "language_customization_id" =
        getOpt o "language_customization_id") :=
  ⟨normalizeNames_idem o, norm_preserve_wt o, norm_preserve_ct o,
   norm_preserve_opt o, norm_preserve_lang o⟩

/-- Witness for C9: a truthy modern watson-token is preserved by
normalization. -/
theorem C9_normalization_witness :
    truthyO (getOpt [("watson-token", JsVal.str "w")] "watson-token") = true ∧
    getOpt (normalizeNames [("watson-token", JsVal.str "w")]) "watson-token" =
      getOpt [("watson-token", JsVal.str "w")] "watson-token" :=
  ⟨by decide, (C9_normalization [("watson-token", JsVal.str "w")]).2.1 (by decide)⟩

/-- C10: in text mode, the outputs produced by a result frame are exactly
the transcripts of the first alternative of each final result that has
an alternatives property, in order; final results without the property
contribute nothing, and processing does not throw, assuming every final
alternatives array is nonempty with a transcript on its head. -/
theorem C10_final_transcripts (s : St) (f : RFrame) (rs : List RResult)
    (hc : s.crashed = false) (hsock : s.sock ≠ SockSt.noSocket)
    (he : s.ended = false) (hobj : s.objectMode = false)
    (herr : truthyS f.error = false) (hst : f.state ≠ some "listening")
    (hres : f.results = some rs) (hcr : textCrashes rs = false) :
    (step s (Ev.sockMsg f)).outs = s.outs ++
      (rs.filterMap (fun r =>
        if r.final then
          match r.alternatives with
          | some l =>
            match l.head? with
            | some a => a.transcript
            | none => none
          | none => none
        else none)).map Out.txt ∧
    (step s (Ev.sockMsg f)).crashed = false := by
  have h1 : step s (Ev.sockMsg f) =
      { s with outs := s.outs ++ (finalTexts rs).map Out.txt } := by
    rw [step_msg s f hc]
    exact doMsg_text s f rs hsock herr hst hobj hres hc he hcr
  rw [h1]
  exact ⟨rfl, hc⟩

/-- Witness for C10: a concrete frame with one final result yields
exactly its first-alternative transcript. -/
theorem C10_final_transcripts_witness :
    resFrame1.results = some [{ final := true, alternatives := some [resAlt] }] ∧
    (step stateTxt (Ev.sockMsg resFrame1)).outs =
      stateTxt.outs ++
      (([{ final := true, alternatives := some [resAlt] }] : List RResult).filterMap
        (fun r =>
          if r.final then
            match r.alternatives with
            | some l =>
              match l.head? with
              | some a => a.transcript
              | none => none
            | none => none
          else none)).map Out.txt :=
  ⟨by decide,
   (C10_final_transcripts stateTxt resFrame1
      [{ final := true, alternatives := some [resAlt] }]
      (by decide) (by decide) (by decide) (by decide) (by decide) (by decide)
      (by decide) (by decide)).1⟩
